import Mathlib

/-!
Verification development for the `remiplace` server core: a shallow embedding
of the state-synchronization engine (cell store + in-memory cache, placement
log with amortized truncation, replay guard, connection admission and
liveness, broadcast fanout) together with proofs of its specified
properties.

Conventions of the embedding:
* JS `Map`s and SQL tables keyed by a primary key are modelled as
  association lists (`List (key × value)`); insertion (`Map.set`, SQL
  `INSERT ... ON CONFLICT DO UPDATE`) replaces in place when the key is
  present and appends otherwise, deletion filters the key out.  Both have
  exactly the replace-or-insert / delete semantics of the originals.
* wall-clock instants (`Date.now()`, SQL `datetime('now')`) are `Nat`
  milliseconds passed in explicitly as a `now` parameter.
* the read-only TTL stats cache (`statsCache` in `database.js`) is not part
  of the modelled state: no verified property mentions `getStats`.
-/

set_option linter.unusedVariables false
set_option linter.unreachableTactic false
set_option linter.unusedTactic false

namespace Remiplace

/-! ## Replay Guard (nonce store)

Embedding of `checkAndUseNonce` and the expiry sweep from the nonce-store
module, in the local (no shared Redis backend) configuration: the store is
a `Map` from `nonce:${addr.toLowerCase()}:${nonce}` to the time first seen.
The map key is modelled as the pair `(address.toLower, nonce)`, a faithful
rendering of the key template string.  The `timestamp` argument is modelled
after `parseInt` has succeeded (a failed parse takes the same
`expired_timestamp` branch as an out-of-window timestamp). -/

/-- Timestamp validity window in milliseconds: `5 * 60 * 1000` in
`checkAndUseNonce`. -/
def tsWindowMs : Nat := 5 * 60 * 1000

/-- Nonce record TTL in milliseconds: `const TTL = 10 * 60 * 1000`. -/
def nonceTTLMs : Nat := 10 * 60 * 1000

/-- Store key built by `key(addr, nonce)`: the address is lower-cased. -/
def nonceKey (address nonce : String) : String × String :=
  (address.toLower, nonce)

/-- The in-memory nonce store (`const store = new Map()`). -/
structure NonceStore where
  entries : List ((String × String) × Nat)
deriving Repr, DecidableEq

/-- Result of `checkAndUseNonce`: `{valid: true}` or
`{valid: false, reason}`. -/
inductive NonceResult
  | valid
  | invalid (reason : String)
deriving Repr, DecidableEq

/-- Membership test of the store (`store.has(k)`). -/
def hasNonce (s : NonceStore) (address nonce : String) : Bool :=
  s.entries.any (fun e => e.1 == nonceKey address nonce)

/-- Embedding of `checkAndUseNonce(address, nonce, timestamp)` (local
path): reject `expired_timestamp` when `Math.abs(now - ts)` exceeds the
five-minute window, reject `nonce_reused` when the key is already stored,
otherwise record the key and accept. -/
def checkAndUseNonce (s : NonceStore) (address nonce : String) (ts : Int) (now : Nat) :
    NonceResult × NonceStore :=
  if ((now : Int) - ts).natAbs > tsWindowMs then
    (.invalid "expired_timestamp", s)
  else if s.entries.any (fun e => e.1 == nonceKey address nonce) then
    (.invalid "nonce_reused", s)
  else
    (.valid, ⟨s.entries ++ [(nonceKey address nonce, now)]⟩)

/-- Embedding of the periodic cleanup sweep: delete every entry whose
recorded time is more than `TTL` in the past. -/
def sweepExpired (now : Nat) (s : NonceStore) : NonceStore :=
  ⟨s.entries.filter (fun e => decide (now - e.2 ≤ nonceTTLMs))⟩

/-! ## Cell Store and State Cache (`database.js`, canvas service)

The durable SQL `pixels` table and the in-memory `cache.pixels` map are
both keyed by the coordinate pair; they are modelled as two separate
association lists because the code updates them through separate
statements, and their agreement is an invariant to be proved, not
assumed.  The placement log `pixel_history` is a list ordered by the
autoincrement id, oldest first. -/

/-- A coordinate pair `(x, y)`. -/
abbrev Coord := Int × Int

/-- A `pixels`-table row / cache entry: coordinates, color, last writer
(`placed_by`, nullable) and write time (`placed_at`). -/
structure Row where
  x : Int
  y : Int
  color : String
  placed_by : Option String
  placed_at : Nat
deriving DecidableEq

/-- A placement-log (`pixel_history`) row, minus the autoincrement id. -/
structure HistEntry where
  x : Int
  y : Int
  color : String
  placed_by : Option String
deriving DecidableEq

/-- A bare pixel triple, as carried by batch and import payloads and
returned by `getAllPixels()`. -/
structure PixelIn where
  x : Int
  y : Int
  color : String
deriving DecidableEq

/-- A keyed row collection (the `pixels` table, or the cache map). -/
abbrev KeyedRows := List (Coord × Row)

/-- Replace-or-insert on a keyed row list: the shared semantics of SQL
`INSERT ... ON CONFLICT(x, y) DO UPDATE` (`stmt.setPixel`) and JS
`cache.pixels.set(key, value)`. -/
def setKey (k : Coord) (v : Row) (l : KeyedRows) : KeyedRows :=
  if l.any (fun p => p.1 == k) then
    l.map (fun p => if p.1 == k then (k, v) else p)
  else l ++ [(k, v)]

/-- Key membership: `cache.pixels.has(key)` / SQL row existence. -/
def hasKey (k : Coord) (l : KeyedRows) : Bool :=
  l.any (fun p => p.1 == k)

/-- Key deletion: `DELETE FROM pixels WHERE x = ? AND y = ?` /
`cache.pixels.delete(key)`. -/
def delKey (k : Coord) (l : KeyedRows) : KeyedRows :=
  l.filter (fun p => !(p.1 == k))

/-- Placement-log ceiling: `HISTORY_MAX_ENTRIES = 100000`. -/
def HISTORY_MAX_ENTRIES : Nat := 100000

/-- Amortized prune check interval: `PRUNE_CHECK_INTERVAL = 500`. -/
def PRUNE_CHECK_INTERVAL : Nat := 500

/-- The mutable state owned by `database.js`: the SQL `pixels` table, the
placement log (oldest first), the in-memory cache map and its occupancy
counter `cache.count`, the `users` table (address, `pixel_count`), the
`canvas_snapshots` table, and the module counter `placementsSincePrune`. -/
structure ServerState where
  table : KeyedRows
  history : List HistEntry
  cache : KeyedRows
  count : Int
  users : List (String × Nat)
  snapshots : List (List PixelIn)
  sincePrune : Nat
deriving DecidableEq

/-- Semantics of `stmt.pruneHistory.run(HISTORY_MAX_ENTRIES)`: delete the
rows at and below the id sitting `HISTORY_MAX_ENTRIES` back from the
newest, i.e. keep exactly the newest `HISTORY_MAX_ENTRIES` rows; a no-op
when the log is not longer than that (the `OFFSET` subselect is empty). -/
def pruneHistoryRun (h : List HistEntry) : List HistEntry :=
  h.drop (h.length - HISTORY_MAX_ENTRIES)

/-- Embedding of `maybePruneHistory()`: advance `placementsSincePrune`;
once it reaches `PRUNE_CHECK_INTERVAL`, reset it and truncate the log
when it exceeds `HISTORY_MAX_ENTRIES`. -/
def maybePruneHistory (s : ServerState) : ServerState :=
  if s.sincePrune + 1 < PRUNE_CHECK_INTERVAL then
    { s with sincePrune := s.sincePrune + 1 }
  else if s.history.length > HISTORY_MAX_ENTRIES then
    { s with sincePrune := 0, history := pruneHistoryRun s.history }
  else { s with sincePrune := 0 }

/-- Embedding of `stmt.upsertUser`: insert the address with `pixel_count`
0 unless present (the conflict branch only refreshes `last_seen`, which
is not modelled). -/
def upsertUser (addr : String) (u : List (String × Nat)) : List (String × Nat) :=
  if u.any (fun p => p.1 == addr) then u else u ++ [(addr, 0)]

/-- Embedding of `UPDATE users SET pixel_count = pixel_count + k WHERE
address = ?` (`stmt.incUserPixels` has `k = 1`). -/
def incUserPixels (addr : String) (k : Nat) (u : List (String × Nat)) :
    List (String × Nat) :=
  u.map (fun p => if p.1 == addr then (p.1, p.2 + k) else p)

/-- The writer bookkeeping shared by place and batch place: upsert the
user row, then add `k` to its `pixel_count`; a null writer leaves the
table untouched (`if (addr) { ... }`). -/
def updUsers (addr : Option String) (k : Nat) (u : List (String × Nat)) :
    List (String × Nat) :=
  match addr with
  | some a => incUserPixels a k (upsertUser a u)
  | none => u

/-- Body of the `transactions.placePixel` transaction before the final
`maybePruneHistory()` call: upsert the row, append the log entry, update
the writer's user record, bump the cache count when the coordinate was
unoccupied, and mirror the row into the cache. -/
def placePixelCore (x y : Int) (color : String) (addr : Option String) (now : Nat)
    (s : ServerState) : ServerState :=
  let row : Row := ⟨x, y, color, addr, now⟩
  let s1 : ServerState := { s with
    table := setKey (x, y) row s.table,
    history := s.history ++ [⟨x, y, color, addr⟩],
    users := updUsers addr 1 s.users }
  let s2 : ServerState :=
    if hasKey (x, y) s1.cache then s1 else { s1 with count := s1.count + 1 }
  { s2 with cache := setKey (x, y) row s2.cache }

/-- Embedding of `transactions.placePixel`: the transaction body followed
by the amortized prune check. -/
def placePixel (x y : Int) (color : String) (addr : Option String) (now : Nat)
    (s : ServerState) : ServerState :=
  maybePruneHistory (placePixelCore x y color addr now s)

/-- One iteration of the `transactions.placeBatch` loop, carrying the
`newCount` accumulator. -/
def placeBatchStep (addr : Option String) (now : Nat)
    (acc : ServerState × Int) (p : PixelIn) : ServerState × Int :=
  let row : Row := ⟨p.x, p.y, p.color, addr, now⟩
  let s1 : ServerState := { acc.1 with
    table := setKey (p.x, p.y) row acc.1.table,
    history := acc.1.history ++ [⟨p.x, p.y, p.color, addr⟩] }
  let n := if hasKey (p.x, p.y) s1.cache then acc.2 else acc.2 + 1
  ({ s1 with cache := setKey (p.x, p.y) row s1.cache }, n)

/-- Body of the `transactions.placeBatch` transaction before the final
`maybePruneHistory()` call: per pixel, upsert the row, append a log entry
and mirror the row into the cache, accumulating `newCount` over
unoccupied coordinates; afterwards update the writer's `pixel_count` by
the whole batch length and add `newCount` to the cache count. -/
def placeBatchCore (ps : List PixelIn) (addr : Option String) (now : Nat)
    (s : ServerState) : ServerState :=
  let r := ps.foldl (placeBatchStep addr now) (s, 0)
  { r.1 with
    users := updUsers addr ps.length r.1.users,
    count := r.1.count + r.2 }

/-- Embedding of `transactions.placeBatch`: the transaction body followed
by the amortized prune check, run once for the whole batch. -/
def placeBatch (ps : List PixelIn) (addr : Option String) (now : Nat)
    (s : ServerState) : ServerState :=
  maybePruneHistory (placeBatchCore ps addr now s)

/-- Embedding of `transactions.erase`: delete the row, append an
`'ERASED'` log entry, and when the coordinate is occupied in the cache
remove it and decrement the count.  The code runs no user update and no
prune check here. -/
def erasePixel (x y : Int) (admin : Option String) (s : ServerState) : ServerState :=
  let s1 : ServerState := { s with
    table := delKey (x, y) s.table,
    history := s.history ++ [⟨x, y, "ERASED", admin⟩] }
  if hasKey (x, y) s1.cache then
    { s1 with cache := delKey (x, y) s1.cache, count := s1.count - 1 }
  else s1

/-- One iteration of the `transactions.bulkImport` loop: upsert the row
with a null writer and mirror it into the cache, bumping the count for a
fresh coordinate. -/
def bulkImportStep (now : Nat) (acc : ServerState) (p : PixelIn) : ServerState :=
  let row : Row := ⟨p.x, p.y, p.color, none, now⟩
  let a1 : ServerState := { acc with table := setKey (p.x, p.y) row acc.table }
  let a2 : ServerState :=
    if hasKey (p.x, p.y) a1.cache then a1 else { a1 with count := a1.count + 1 }
  { a2 with cache := setKey (p.x, p.y) row a2.cache }

/-- Embedding of `transactions.bulkImport`: the loop above over the whole
list; no log entries and no prune check. -/
def bulkImport (ps : List PixelIn) (now : Nat) (s : ServerState) : ServerState :=
  ps.foldl (bulkImportStep now) s

/-- Embedding of `databaseAPI.getAllPixels()`: the cache projected to
bare `(x, y, color)` triples, in cache iteration order. -/
def getAllPixels (s : ServerState) : List PixelIn :=
  s.cache.map (fun p => ⟨p.2.x, p.2.y, p.2.color⟩)

/-- Embedding of `databaseAPI.getPixelCount()`. -/
def getPixelCount (s : ServerState) : Int := s.count

/-- The observable grid state: occupied coordinates with their color and
writer, as mirrored by the cache (write times excluded). -/
def observableGrid (s : ServerState) : List (Coord × String × Option String) :=
  s.cache.map (fun kv => (kv.1, kv.2.color, kv.2.placed_by))

/-- Embedding of `databaseAPI.getPixel(x, y)`. -/
def getPixel (x y : Int) (s : ServerState) : Option Row :=
  (s.cache.find? (fun p => p.1 == ((x, y) : Coord))).map (fun p => p.2)

/-- Embedding of `databaseAPI.clearCanvas()`: empty the table and the
cache and zero the count. -/
def dbClearCanvas (s : ServerState) : ServerState :=
  { s with table := [], cache := [], count := 0 }

/-- Embedding of `databaseAPI.saveSnapshot()`: append the current pixel
list to the snapshot table. -/
def saveSnapshot (s : ServerState) : ServerState :=
  { s with snapshots := s.snapshots ++ [getAllPixels s] }

/-- Canvas-service `exportCanvas()`: its `pixels` field. -/
def exportCanvas (s : ServerState) : List PixelIn := getAllPixels s

/-- Canvas-service `clearCanvas()`: snapshot, then clear. -/
def svcClearCanvas (s : ServerState) : ServerState :=
  dbClearCanvas (saveSnapshot s)

/-- Canvas-service `importCanvas(pixels)`: snapshot, then bulk import. -/
def importCanvas (ps : List PixelIn) (now : Nat) (s : ServerState) : ServerState :=
  bulkImport ps now (saveSnapshot s)

/-- The state built by `initDatabase` right after loading the `pixels`
table into the cache (`cache.count = rows.length`; the empty-database
backup auto-import path is not taken). -/
def initState (table : KeyedRows) (history : List HistEntry)
    (users : List (String × Nat)) (snaps : List (List PixelIn)) : ServerState :=
  { table := table, history := history, cache := table,
    count := (table.length : Int), users := users, snapshots := snaps,
    sincePrune := 0 }

/-- The clean startup state of a fresh database. -/
def initEmpty : ServerState := initState [] [] [] []

/-- Well-formedness: the SQL primary key keeps the table's coordinates
distinct, the cache mirrors the table exactly, the occupancy counter
equals the cache size, and every entry sits under the key formed from
its own coordinates. -/
def WF (s : ServerState) : Prop :=
  (s.table.map Prod.fst).Nodup ∧
  s.cache = s.table ∧
  s.count = (s.cache.length : Int) ∧
  ∀ kv ∈ s.cache, ((kv.2.x, kv.2.y) : Coord) = kv.1

instance (s : ServerState) : Decidable (WF s) := by
  unfold WF; infer_instance

/-! ## Mutation operation sequences (for stating state invariants) -/

/-- The three mutations of the single mutation path. -/
inductive Op
  | place (x y : Int) (color : String) (addr : Option String) (now : Nat)
  | batch (ps : List PixelIn) (addr : Option String) (now : Nat)
  | erase (x y : Int) (admin : Option String)
deriving DecidableEq

/-- Run one mutation. -/
def applyOp (o : Op) (s : ServerState) : ServerState :=
  match o with
  | .place x y c a now => placePixel x y c a now s
  | .batch ps a now => placeBatch ps a now s
  | .erase x y a => erasePixel x y a s

/-- Run a mutation sequence, in order. -/
def applyOps (ops : List Op) (s : ServerState) : ServerState :=
  ops.foldl (fun s o => applyOp o s) s

/-- The specification-level occupied-coordinate set after a mutation
sequence: coordinates ever written minus those subsequently erased. -/
def occAfter : List Op → Finset Coord → Finset Coord
  | [], f => f
  | .place x y _ _ _ :: ops, f => occAfter ops (insert ((x, y) : Coord) f)
  | .batch ps _ _ :: ops, f =>
      occAfter ops (ps.foldl (fun g p => insert ((p.x, p.y) : Coord) g) f)
  | .erase x y _ :: ops, f => occAfter ops (Finset.erase f ((x, y) : Coord))

/-- Recognizer for single-pixel place mutations. -/
def isSinglePlace : Op → Bool
  | .place _ _ _ _ _ => true
  | _ => false

/-! ## Canvas configuration (`config/index.js` defaults) -/

/-- Default `CANVAS_WIDTH`. -/
def canvasWidthCfg : Int := 220

/-- Default `CANVAS_HEIGHT`. -/
def canvasHeightCfg : Int := 150

/-- The configured color palette. -/
def paletteCfg : List String :=
  ["#ff0000", "#ff7f00", "#ffff00", "#00ff00", "#0000ff", "#4b0082",
   "#9400d3", "#000000", "#ffffff"]

/-! ## WebSocket pixel handler (write path bypassing HTTP validation) -/

/-- Events the pixel handler sends back on its own connection. -/
inductive WsResult
  | errorMsg (message : String)
  | placed
  | erased
deriving DecidableEq

/-- Embedding of `handlePixel(ws, data)` after JSON parsing, for numeric
`x`/`y` (the handler checks only `typeof data.x === 'number'`, never the
grid bounds): with no color, erase (admin only); otherwise place through
`canvasService.placePixel` → `databaseAPI.placePixel`.  `user` is the
token address, or `'anonymous'` in open mode. -/
def handlePixel (openMode authorized isAdmin : Bool) (x y : Int)
    (color : Option String) (user : Option String) (now : Nat)
    (s : ServerState) : WsResult × ServerState :=
  if !openMode && !authorized then (.errorMsg "Auth required", s)
  else match color with
    | none =>
      if !isAdmin then (.errorMsg "Admin required", s)
      else (.erased, erasePixel x y user s)
    | some c => (.placed, placePixel x y c user now s)

/-! ## Connection Admission (websocket module) -/

/-- The admission state: `connsByIP` (source address ↦ number of open
sockets held) and the current `wss.clients.size` (connections admitted
and not yet closed). -/
structure WsState where
  connsByIP : List (String × Nat)
  total : Nat
deriving DecidableEq

/-- `connsByIP.get(ip)?.size || 0`. -/
def ipCount (s : WsState) (ip : String) : Nat :=
  ((s.connsByIP.find? (fun e => e.1 == ip)).map Prod.snd).getD 0

/-- Embedding of `canConnect(ip)`: the global cap is checked first
(`'Server full'`), then the per-source cap (`'Too many connections'`);
`none` means the connection may proceed. -/
def canConnect (maxPerIP maxTotal : Nat) (s : WsState) (ip : String) :
    Option String :=
  if s.total ≥ maxTotal then some "Server full"
  else if ipCount s ip ≥ maxPerIP then some "Too many connections"
  else none

/-- Outcome of a connection attempt. -/
inductive ConnResult
  | rejected (reason : String)
  | admitted (authenticated : Bool)
deriving DecidableEq

/-- Validity of the optional `?token=` parameter as decided by the
external `jwt.verify`; the token contents are opaque to the core. -/
inductive TokenCheck
  | noToken
  | validToken
  | invalidToken
deriving DecidableEq

/-- Registration of an admitted socket (`connsByIP.get(ip).add(ws)` plus
membership in `wss.clients`). -/
def addConn (s : WsState) (ip : String) : WsState :=
  { connsByIP :=
      if s.connsByIP.any (fun e => e.1 == ip) then
        s.connsByIP.map (fun e => if e.1 == ip then (e.1, e.2 + 1) else e)
      else s.connsByIP ++ [(ip, 1)],
    total := s.total + 1 }

/-- Deregistration on close (`connsByIP.get(ws.clientIP)?.delete(ws)`). -/
def removeConn (s : WsState) (ip : String) : WsState :=
  { connsByIP := s.connsByIP.map (fun e => if e.1 == ip then (e.1, e.2 - 1) else e),
    total := s.total - 1 }

/-- Embedding of the `wss.on('connection')` handler up to the welcome
message: the capacity check runs before any token work; on success the
socket is registered, then the token (if any) is verified, a failure
unregistering and closing the socket. -/
def handleConnection (maxPerIP maxTotal : Nat) (s : WsState) (ip : String)
    (tok : TokenCheck) : ConnResult × WsState :=
  match canConnect maxPerIP maxTotal s ip with
  | some reason => (.rejected reason, s)
  | none =>
    let s1 := addConn s ip
    match tok with
    | .invalidToken => (.rejected "Invalid token", removeConn s1 ip)
    | .noToken => (.admitted false, s1)
    | .validToken => (.admitted true, s1)

/-! ## Liveness sweep (heartbeat) -/

/-- Heartbeat probe interval in milliseconds (`setInterval(..., 25000)`). -/
def heartbeatIntervalMs : Nat := 25000

/-- Inactivity grace in milliseconds (`(now - ws.lastActivity) > 60000`). -/
def terminateGraceMs : Nat := 60000

/-- One connection's liveness state (`ws.isAlive`, `ws.lastActivity`)
plus whether the sweep has terminated it. -/
structure Conn where
  isAlive : Bool
  lastActivity : Nat
  terminated : Bool
deriving DecidableEq

/-- Events touching one connection's liveness state: an inbound message
(`ws.on('message')` marks any message as activity), a probe reply
(`ws.on('pong')`), and one firing of the heartbeat sweep at time `t`. -/
inductive CEvent
  | msg (t : Nat)
  | pong (t : Nat)
  | sweep (t : Nat)
deriving DecidableEq

/-- Embedding of the three handlers: messages and pongs set `isAlive` and
refresh `lastActivity`; the sweep terminates a connection only when it
both missed the last probe and has been inactive beyond the grace,
otherwise it clears `isAlive` and sends the next probe. -/
def stepConn (e : CEvent) (c : Conn) : Conn :=
  if c.terminated then c
  else match e with
    | .msg t => { c with isAlive := true, lastActivity := t }
    | .pong t => { c with isAlive := true, lastActivity := t }
    | .sweep t =>
      if !c.isAlive && t - c.lastActivity > terminateGraceMs then
        { c with terminated := true }
      else { c with isAlive := false }

/-- Run a sequence of liveness events. -/
def runConn (es : List CEvent) (c : Conn) : Conn :=
  es.foldl (fun c e => stepConn e c) c

/-! ## Broadcast fanout (shared channel) -/

/-- The shared broadcast channel name. -/
def CHANNEL : String := "drawingboard:broadcast"

/-- A message on the shared channel: `{type, data, origin}`. -/
structure BMsg where
  type : String
  data : String
  origin : String
deriving DecidableEq

/-- Embedding of `broadcast`'s republication: the outgoing message is
tagged with the publishing instance's identity. -/
def publishShared (selfId msgType msgData : String) : BMsg :=
  ⟨msgType, msgData, selfId⟩

/-- Embedding of the `redisSub.on('message')` handler's decision: an
incoming message is redelivered to local connections exactly when the
channel matches and the tagged origin differs from this instance's
identity. -/
def shouldRedeliver (selfId channel : String) (m : BMsg) : Bool :=
  channel == CHANNEL && m.origin != selfId

/-! ## Concrete fixtures used by witnesses -/

/-- The liveness-event trace of a connection that answers every probe:
each heartbeat sweep is followed by the pong it elicited. -/
def probeTrace : List (Nat × Nat) → List CEvent
  | [] => []
  | tp :: l => CEvent.sweep tp.1 :: CEvent.pong tp.2 :: probeTrace l

/-- A state at the brink of the amortized check holding an over-ceiling
log, exercising the truncation exactly once. -/
def pruneWitnessState : ServerState :=
  { initEmpty with
    history := List.replicate (HISTORY_MAX_ENTRIES + 1) ⟨0, 0, "#000000", none⟩,
    sincePrune := PRUNE_CHECK_INTERVAL - 1 }

/-- A small two-pixel canvas reached through the mutation path. -/
def roundtripWitnessState : ServerState :=
  placePixel 1 2 "#ff0000" (some "u") 1 (placePixel 0 0 "#ffffff" none 1 initEmpty)

/-! ### Basic lemmas about keyed row collections -/

theorem hasKey_iff {k : Coord} {l : KeyedRows} :
    hasKey k l = true ↔ k ∈ l.map Prod.fst := by
  simp only [hasKey, List.any_eq_true, beq_iff_eq, List.mem_map]

theorem map_fst_setKey (k : Coord) (v : Row) (l : KeyedRows) :
    (setKey k v l).map Prod.fst =
      if hasKey k l then l.map Prod.fst else l.map Prod.fst ++ [k] := by
  unfold setKey hasKey
  by_cases h : l.any (fun p => p.1 == k) = true
  · rw [if_pos h, if_pos h, List.map_map]
    refine List.map_congr_left ?_
    intro p hp
    by_cases hk : p.1 = k
    · simp [Function.comp, hk]
    · simp [Function.comp, hk]
  · rw [if_neg h, if_neg h]
    simp

theorem length_setKey (k : Coord) (v : Row) (l : KeyedRows) :
    (setKey k v l).length = if hasKey k l then l.length else l.length + 1 := by
  unfold setKey hasKey
  by_cases h : l.any (fun p => p.1 == k) = true
  · rw [if_pos h, if_pos h]; simp
  · rw [if_neg h, if_neg h]; simp

theorem mem_setKey {k : Coord} {v : Row} {l : KeyedRows} {e : Coord × Row}
    (he : e ∈ setKey k v l) : e = (k, v) ∨ e ∈ l := by
  unfold setKey at he
  by_cases h : l.any (fun p => p.1 == k) = true
  · rw [if_pos h] at he
    rcases List.mem_map.mp he with ⟨p, hp, hpe⟩
    by_cases hk : p.1 = k
    · left; rw [← hpe]; simp [hk]
    · right
      have : (if (p.1 == k) = true then ((k, v) : Coord × Row) else p) = p := by
        simp [hk]
      rw [← hpe, this]; exact hp
  · rw [if_neg h] at he
    rcases List.mem_append.mp he with h1 | h1
    · right; exact h1
    · left; simpa using h1

theorem delKey_of_not_has {k : Coord} {l : KeyedRows} (h : hasKey k l = false) :
    delKey k l = l := by
  unfold delKey
  rw [List.filter_eq_self]
  intro p hp
  simp only [Bool.not_eq_eq_eq_not, Bool.not_true, beq_eq_false_iff_ne, ne_eq]
  intro hk
  have hcontra : hasKey k l = true := hasKey_iff.mpr (List.mem_map.mpr ⟨p, hp, hk⟩)
  rw [h] at hcontra
  exact Bool.noConfusion hcontra

theorem map_fst_delKey (k : Coord) (l : KeyedRows) :
    (delKey k l).map Prod.fst = (l.map Prod.fst).filter (fun a => !(a == k)) := by
  unfold delKey
  induction l with
  | nil => rfl
  | cons p t ih =>
    by_cases hk : p.1 = k
    · simp [List.filter_cons, hk, ih]
    · simp [List.filter_cons, hk, ih]

theorem mem_delKey {k : Coord} {l : KeyedRows} {e : Coord × Row}
    (he : e ∈ delKey k l) : e ∈ l :=
  (List.mem_filter.mp he).1

theorem length_delKey_of_has {k : Coord} {l : KeyedRows}
    (hnd : (l.map Prod.fst).Nodup) (h : hasKey k l = true) :
    (delKey k l).length = l.length - 1 := by
  unfold delKey
  induction l with
  | nil => simp [hasKey] at h
  | cons p t ih =>
    simp only [List.map_cons, List.nodup_cons] at hnd
    obtain ⟨hpk, hnd'⟩ := hnd
    by_cases hk : p.1 = k
    · have hfix : t.filter (fun q => !(q.1 == k)) = t := by
        rw [List.filter_eq_self]
        intro q hq
        simp only [Bool.not_eq_eq_eq_not, Bool.not_true, beq_eq_false_iff_ne, ne_eq]
        intro hqk
        exact hpk (by rw [hk, ← hqk]; exact List.mem_map.mpr ⟨q, hq, rfl⟩)
      simp [List.filter_cons, hk, hfix]
    · have h' : hasKey k t = true := by
        rcases hasKey_iff.mp h with hm
        simp only [List.map_cons, List.mem_cons] at hm
        rcases hm with hm | hm
        · exact absurd hm.symm hk
        · exact hasKey_iff.mpr hm
      have hlen := ih hnd' h'
      have hpos : 1 ≤ t.length := by
        rcases hasKey_iff.mp h' with hm
        have := List.length_pos.mpr (List.ne_nil_of_mem hm)
        simpa using this
      have hcond : (!(p.1 == k)) = true := by simp [hk]
      simp only [List.filter_cons, hcond, if_true, List.length_cons, hlen]
      omega

/-! ### Field-preservation lemmas for `maybePruneHistory` -/

theorem maybePrune_table (s : ServerState) : (maybePruneHistory s).table = s.table := by
  unfold maybePruneHistory
  split
  · rfl
  · split <;> rfl

theorem maybePrune_cache (s : ServerState) : (maybePruneHistory s).cache = s.cache := by
  unfold maybePruneHistory
  split
  · rfl
  · split <;> rfl

theorem maybePrune_count (s : ServerState) : (maybePruneHistory s).count = s.count := by
  unfold maybePruneHistory
  split
  · rfl
  · split <;> rfl

theorem maybePrune_users (s : ServerState) : (maybePruneHistory s).users = s.users := by
  unfold maybePruneHistory
  split
  · rfl
  · split <;> rfl

theorem maybePrune_snapshots (s : ServerState) :
    (maybePruneHistory s).snapshots = s.snapshots := by
  unfold maybePruneHistory
  split
  · rfl
  · split <;> rfl

theorem maybePrune_sincePrune (s : ServerState) :
    (maybePruneHistory s).sincePrune =
      if s.sincePrune + 1 < PRUNE_CHECK_INTERVAL then s.sincePrune + 1 else 0 := by
  unfold maybePruneHistory
  split
  · simp_all
  · split <;> simp_all

theorem maybePrune_history (s : ServerState) :
    (maybePruneHistory s).history =
      if s.sincePrune + 1 < PRUNE_CHECK_INTERVAL then s.history
      else if s.history.length > HISTORY_MAX_ENTRIES then pruneHistoryRun s.history
      else s.history := by
  unfold maybePruneHistory
  split
  · simp_all
  · split <;> simp_all

theorem WF_maybePrune {s : ServerState} (h : WF s) : WF (maybePruneHistory s) := by
  obtain ⟨h1, h2, h3, h4⟩ := h
  refine ⟨?_, ?_, ?_, ?_⟩
  · rw [maybePrune_table]; exact h1
  · rw [maybePrune_table, maybePrune_cache]; exact h2
  · rw [maybePrune_count, maybePrune_cache]; exact h3
  · rw [maybePrune_cache]; exact h4

/-! ### Effect of one mirrored upsert on a well-formed row collection -/

theorem setKey_preserves {l : KeyedRows}
    (hnd : (l.map Prod.fst).Nodup)
    (hkeys : ∀ kv ∈ l, ((kv.2.x, kv.2.y) : Coord) = kv.1)
    (x y : Int) (c : String) (a : Option String) (now : Nat) :
    ((setKey (x, y) ⟨x, y, c, a, now⟩ l).map Prod.fst).Nodup ∧
    (∀ kv ∈ setKey (x, y) (⟨x, y, c, a, now⟩ : Row) l,
        ((kv.2.x, kv.2.y) : Coord) = kv.1) ∧
    ((setKey (x, y) (⟨x, y, c, a, now⟩ : Row) l).length
        = if hasKey (x, y) l then l.length else l.length + 1) ∧
    ((setKey (x, y) (⟨x, y, c, a, now⟩ : Row) l).map Prod.fst).toFinset
        = insert ((x, y) : Coord) (l.map Prod.fst).toFinset := by
  refine ⟨?_, ?_, length_setKey _ _ _, ?_⟩
  · rw [map_fst_setKey]
    by_cases h : hasKey ((x, y) : Coord) l = true
    · rw [if_pos h]; exact hnd
    · rw [if_neg h, List.nodup_append]
      refine ⟨hnd, List.nodup_singleton _, ?_⟩
      intro a' ha' hb'
      simp only [List.mem_singleton] at hb'
      subst hb'
      exact h (hasKey_iff.mpr ha')
  · intro kv hkv
    rcases mem_setKey hkv with h | h
    · subst h; rfl
    · exact hkeys kv h
  · rw [map_fst_setKey]
    by_cases h : hasKey ((x, y) : Coord) l = true
    · rw [if_pos h, eq_comm, Finset.insert_eq_self, List.mem_toFinset]
      exact hasKey_iff.mp h
    · rw [if_neg h, List.toFinset_append]
      ext a'
      simp [or_comm]

theorem toFinset_delKey (k : Coord) (l : KeyedRows) :
    ((delKey k l).map Prod.fst).toFinset = ((l.map Prod.fst).toFinset).erase k := by
  rw [map_fst_delKey]
  ext a
  simp only [List.mem_toFinset, List.mem_filter, Finset.mem_erase,
    Bool.not_eq_eq_eq_not, Bool.not_true, beq_eq_false_iff_ne, ne_eq]
  tauto

/-! ### Componentwise descriptions of the mutation transactions -/

theorem placePixelCore_components (x y : Int) (c : String) (a : Option String)
    (now : Nat) (s : ServerState) :
    (placePixelCore x y c a now s).table
        = setKey (x, y) ⟨x, y, c, a, now⟩ s.table ∧
    (placePixelCore x y c a now s).cache
        = setKey (x, y) ⟨x, y, c, a, now⟩ s.cache ∧
    (placePixelCore x y c a now s).count
        = (if hasKey (x, y) s.cache then s.count else s.count + 1) ∧
    (placePixelCore x y c a now s).history = s.history ++ [⟨x, y, c, a⟩] ∧
    (placePixelCore x y c a now s).users = updUsers a 1 s.users ∧
    (placePixelCore x y c a now s).snapshots = s.snapshots ∧
    (placePixelCore x y c a now s).sincePrune = s.sincePrune := by
  refine ⟨?_, ?_, ?_, ?_, ?_, ?_, ?_⟩ <;>
    (simp only [placePixelCore]; split <;> rfl)

theorem placeBatchStep_components (a : Option String) (now : Nat)
    (s : ServerState) (n : Int) (p : PixelIn) :
    (placeBatchStep a now (s, n) p).1.table
        = setKey (p.x, p.y) ⟨p.x, p.y, p.color, a, now⟩ s.table ∧
    (placeBatchStep a now (s, n) p).1.cache
        = setKey (p.x, p.y) ⟨p.x, p.y, p.color, a, now⟩ s.cache ∧
    (placeBatchStep a now (s, n) p).1.count = s.count ∧
    (placeBatchStep a now (s, n) p).1.history
        = s.history ++ [⟨p.x, p.y, p.color, a⟩] ∧
    (placeBatchStep a now (s, n) p).1.users = s.users ∧
    (placeBatchStep a now (s, n) p).1.snapshots = s.snapshots ∧
    (placeBatchStep a now (s, n) p).1.sincePrune = s.sincePrune ∧
    (placeBatchStep a now (s, n) p).2
        = (if hasKey (p.x, p.y) s.cache then n else n + 1) := by
  refine ⟨?_, ?_, ?_, ?_, ?_, ?_, ?_, ?_⟩ <;>
    (simp only [placeBatchStep]; try (split <;> rfl)) <;> rfl

theorem erasePixel_components (x y : Int) (a : Option String) (s : ServerState) :
    (erasePixel x y a s).table = delKey (x, y) s.table ∧
    (erasePixel x y a s).cache
        = (if hasKey (x, y) s.cache then delKey (x, y) s.cache else s.cache) ∧
    (erasePixel x y a s).count
        = (if hasKey (x, y) s.cache then s.count - 1 else s.count) ∧
    (erasePixel x y a s).history = s.history ++ [⟨x, y, "ERASED", a⟩] ∧
    (erasePixel x y a s).users = s.users ∧
    (erasePixel x y a s).snapshots = s.snapshots ∧
    (erasePixel x y a s).sincePrune = s.sincePrune := by
  refine ⟨?_, ?_, ?_, ?_, ?_, ?_, ?_⟩ <;>
    (simp only [erasePixel]; try (split <;> rfl)) <;> rfl

/-! ### Well-formedness preservation and key-set effect of each mutation -/

theorem WF_placePixel {s : ServerState} (h : WF s)
    (x y : Int) (c : String) (a : Option String) (now : Nat) :
    WF (placePixel x y c a now s) ∧
    ((placePixel x y c a now s).cache.map Prod.fst).toFinset
      = insert ((x, y) : Coord) ((s.cache.map Prod.fst).toFinset) := by
  obtain ⟨hnd, hct, hcnt, hkeys⟩ := h
  have hndc : (s.cache.map Prod.fst).Nodup := by rw [hct]; exact hnd
  obtain ⟨ht, hc, hco, hh, hu, hsn, hsp⟩ := placePixelCore_components x y c a now s
  obtain ⟨snd, skeys, slen, sfin⟩ := setKey_preserves hndc hkeys x y c a now
  have hcore : WF (placePixelCore x y c a now s) := by
    refine ⟨?_, ?_, ?_, ?_⟩
    · rw [ht, ← hct]; exact snd
    · rw [hc, ht, hct]
    · rw [hco, hc, slen]
      by_cases hb : hasKey (x, y) s.cache = true
      · rw [if_pos hb, if_pos hb, hcnt]
      · rw [if_neg hb, if_neg hb]
        omega
    · rw [hc]; exact skeys
  refine ⟨WF_maybePrune hcore, ?_⟩
  show ((maybePruneHistory (placePixelCore x y c a now s)).cache.map
      Prod.fst).toFinset = _
  rw [maybePrune_cache, hc, sfin]

theorem WF_erasePixel {s : ServerState} (h : WF s) (x y : Int) (a : Option String) :
    WF (erasePixel x y a s) ∧
    ((erasePixel x y a s).cache.map Prod.fst).toFinset
      = ((s.cache.map Prod.fst).toFinset).erase ((x, y) : Coord) := by
  obtain ⟨hnd, hct, hcnt, hkeys⟩ := h
  have hndc : (s.cache.map Prod.fst).Nodup := by rw [hct]; exact hnd
  obtain ⟨ht, hc, hco, hh, hu, hsn, hsp⟩ := erasePixel_components x y a s
  by_cases hb : hasKey (x, y) s.cache = true
  · have hlen := length_delKey_of_has hndc hb
    have hpos : 1 ≤ s.cache.length := by
      rcases hasKey_iff.mp hb with hm
      have h1 := List.length_pos.mpr (List.ne_nil_of_mem hm)
      simpa using h1
    refine ⟨⟨?_, ?_, ?_, ?_⟩, ?_⟩
    · rw [ht, ← hct, map_fst_delKey]
      exact hndc.filter _
    · rw [hc, ht, if_pos hb, hct]
    · rw [hco, hc, if_pos hb, if_pos hb, hlen, hcnt]
      omega
    · rw [hc, if_pos hb]
      intro kv hkv
      exact hkeys kv (mem_delKey hkv)
    · rw [hc, if_pos hb, toFinset_delKey]
  · have hb' : hasKey ((x, y) : Coord) s.cache = false := by
      simpa using hb
    have hdel : delKey ((x, y) : Coord) s.cache = s.cache := delKey_of_not_has hb'
    refine ⟨⟨?_, ?_, ?_, ?_⟩, ?_⟩
    · rw [ht, ← hct, hdel]; exact hndc
    · rw [hc, ht, if_neg hb, ← hct, hdel]
    · rw [hco, hc, if_neg hb, if_neg hb]; exact hcnt
    · rw [hc, if_neg hb]; exact hkeys
    · rw [hc, if_neg hb, eq_comm]
      apply Finset.erase_eq_of_not_mem
      rw [List.mem_toFinset]
      intro hm
      exact hb (hasKey_iff.mpr hm)

/-! ### Setting the same key twice: observable-projection lemmas -/

theorem hasKey_setKey_self (k : Coord) (v : Row) (l : KeyedRows) :
    hasKey k (setKey k v l) = true := by
  rw [hasKey_iff, map_fst_setKey]
  by_cases h : hasKey k l = true
  · rw [if_pos h]; exact hasKey_iff.mp h
  · rw [if_neg h]; simp

theorem setKey_self_entries (k : Coord) (v : Row) (l : KeyedRows) :
    ∀ e ∈ setKey k v l, e.1 = k → e = (k, v) := by
  intro e he hek
  unfold setKey at he
  by_cases h : l.any (fun p => p.1 == k) = true
  · rw [if_pos h] at he
    rcases List.mem_map.mp he with ⟨p, hp, hpe⟩
    by_cases hk : p.1 = k
    · rw [← hpe]; simp [hk]
    · exfalso
      have : e = p := by rw [← hpe]; simp [hk]
      exact hk (by rw [← this]; exact hek)
  · rw [if_neg h] at he
    rcases List.mem_append.mp he with h1 | h1
    · exfalso
      have : hasKey k l = true :=
        hasKey_iff.mpr (List.mem_map.mpr ⟨e, h1, hek⟩)
      exact h this
    · simpa using h1

theorem observable_setKey_of_has {k : Coord} {v : Row} {L : KeyedRows}
    (hhk : hasKey k L = true)
    (hagree : ∀ e ∈ L, e.1 = k →
      e.2.color = v.color ∧ e.2.placed_by = v.placed_by) :
    (setKey k v L).map (fun kv => (kv.1, kv.2.color, kv.2.placed_by))
      = L.map (fun kv => (kv.1, kv.2.color, kv.2.placed_by)) := by
  have hhk' : (L.any (fun p => p.1 == k)) = true := hhk
  unfold setKey
  rw [if_pos hhk', List.map_map]
  refine List.map_congr_left ?_
  intro p hp
  by_cases hk : p.1 = k
  · obtain ⟨hc, hb⟩ := hagree p hp hk
    simp [Function.comp, hk, hc, hb]
  · simp [Function.comp, hk]

theorem observable_setKey_twice (k : Coord) (v₁ v₂ : Row) (l : KeyedRows)
    (hcol : v₁.color = v₂.color) (hby : v₁.placed_by = v₂.placed_by) :
    (setKey k v₂ (setKey k v₁ l)).map (fun kv => (kv.1, kv.2.color, kv.2.placed_by))
      = (setKey k v₁ l).map (fun kv => (kv.1, kv.2.color, kv.2.placed_by)) := by
  refine observable_setKey_of_has (hasKey_setKey_self k v₁ l) ?_
  intro e he hek
  have hev : e = (k, v₁) := setKey_self_entries k v₁ l e he hek
  rw [hev]
  exact ⟨hcol, hby⟩

theorem maybePrune_history_of_le {s : ServerState}
    (h : s.history.length ≤ HISTORY_MAX_ENTRIES) :
    (maybePruneHistory s).history = s.history := by
  rw [maybePrune_history]
  split
  · rfl
  · rw [if_neg (by omega)]

/-! ### The batch-place fold -/

theorem batchFold_inv (a : Option String) (now : Nat) :
    ∀ (ps : List PixelIn) (s : ServerState) (n : Int),
      (s.cache.map Prod.fst).Nodup → s.cache = s.table →
      (∀ kv ∈ s.cache, ((kv.2.x, kv.2.y) : Coord) = kv.1) →
      (((ps.foldl (placeBatchStep a now) (s, n)).1.cache.map Prod.fst).Nodup ∧
        (ps.foldl (placeBatchStep a now) (s, n)).1.cache
          = (ps.foldl (placeBatchStep a now) (s, n)).1.table ∧
        (∀ kv ∈ (ps.foldl (placeBatchStep a now) (s, n)).1.cache,
          ((kv.2.x, kv.2.y) : Coord) = kv.1)) ∧
      (ps.foldl (placeBatchStep a now) (s, n)).1.count = s.count ∧
      ((ps.foldl (placeBatchStep a now) (s, n)).1.cache.length : Int) + n
        = (s.cache.length : Int) + (ps.foldl (placeBatchStep a now) (s, n)).2 ∧
      ((ps.foldl (placeBatchStep a now) (s, n)).1.cache.map Prod.fst).toFinset
        = ps.foldl (fun f p => insert ((p.x, p.y) : Coord) f)
            ((s.cache.map Prod.fst).toFinset) ∧
      (ps.foldl (placeBatchStep a now) (s, n)).1.history
        = s.history ++ ps.map (fun p => ⟨p.x, p.y, p.color, a⟩) ∧
      (ps.foldl (placeBatchStep a now) (s, n)).1.sincePrune = s.sincePrune ∧
      (ps.foldl (placeBatchStep a now) (s, n)).1.users = s.users ∧
      (ps.foldl (placeBatchStep a now) (s, n)).1.snapshots = s.snapshots := by
  intro ps
  induction ps with
  | nil =>
    intro s n h1 h2 h3
    exact ⟨⟨h1, h2, h3⟩, rfl, rfl, rfl, by simp, rfl, rfl, rfl⟩
  | cons p ps ih =>
    intro s n h1 h2 h3
    obtain ⟨ht, hc, hco, hh, hu, hsn, hsp, hn⟩ :=
      placeBatchStep_components a now s n p
    obtain ⟨snd, skeys, slen, sfin⟩ :=
      setKey_preserves h1 h3 p.x p.y p.color a now
    rcases hpair : placeBatchStep a now (s, n) p with ⟨s₁, n₁⟩
    rw [hpair] at ht hc hco hh hu hsn hsp hn
    dsimp only at ht hc hco hh hu hsn hsp hn
    have h1' : (s₁.cache.map Prod.fst).Nodup := by rw [hc]; exact snd
    have h2' : s₁.cache = s₁.table := by rw [hc, ht, h2]
    have h3' : ∀ kv ∈ s₁.cache, ((kv.2.x, kv.2.y) : Coord) = kv.1 := by
      rw [hc]; exact skeys
    have hfold : (p :: ps).foldl (placeBatchStep a now) (s, n)
        = ps.foldl (placeBatchStep a now) (s₁, n₁) := by
      rw [List.foldl_cons, hpair]
    obtain ⟨⟨g1, g2, g3⟩, gcount, glen, gfin, ghist, gsp, gusers, gsnap⟩ :=
      ih s₁ n₁ h1' h2' h3'
    rw [hfold]
    refine ⟨⟨g1, g2, g3⟩, ?_, ?_, ?_, ?_, ?_, ?_, ?_⟩
    · rw [gcount, hco]
    · have hslen : s₁.cache.length
          = (if hasKey ((p.x, p.y) : Coord) s.cache = true
             then s.cache.length else s.cache.length + 1) := by
        rw [hc, slen]
      by_cases hb : hasKey ((p.x, p.y) : Coord) s.cache = true
      · rw [if_pos hb] at hslen hn
        omega
      · rw [if_neg hb] at hslen hn
        omega
    · rw [gfin, hc, sfin, List.foldl_cons]
    · rw [ghist, hh, List.map_cons]
      simp
    · rw [gsp, hsp]
    · rw [gusers, hu]
    · rw [gsnap, hsn]

theorem placeBatchCore_components (ps : List PixelIn) (a : Option String)
    (now : Nat) (s : ServerState) :
    (placeBatchCore ps a now s).table
        = (ps.foldl (placeBatchStep a now) (s, 0)).1.table ∧
    (placeBatchCore ps a now s).cache
        = (ps.foldl (placeBatchStep a now) (s, 0)).1.cache ∧
    (placeBatchCore ps a now s).count
        = (ps.foldl (placeBatchStep a now) (s, 0)).1.count
          + (ps.foldl (placeBatchStep a now) (s, 0)).2 ∧
    (placeBatchCore ps a now s).history
        = (ps.foldl (placeBatchStep a now) (s, 0)).1.history ∧
    (placeBatchCore ps a now s).users
        = updUsers a ps.length (ps.foldl (placeBatchStep a now) (s, 0)).1.users ∧
    (placeBatchCore ps a now s).snapshots
        = (ps.foldl (placeBatchStep a now) (s, 0)).1.snapshots ∧
    (placeBatchCore ps a now s).sincePrune
        = (ps.foldl (placeBatchStep a now) (s, 0)).1.sincePrune :=
  ⟨rfl, rfl, rfl, rfl, rfl, rfl, rfl⟩

theorem WF_placeBatch {s : ServerState} (h : WF s)
    (ps : List PixelIn) (a : Option String) (now : Nat) :
    WF (placeBatch ps a now s) ∧
    ((placeBatch ps a now s).cache.map Prod.fst).toFinset
      = ps.foldl (fun f p => insert ((p.x, p.y) : Coord) f)
          ((s.cache.map Prod.fst).toFinset) := by
  obtain ⟨hnd, hct, hcnt, hkeys⟩ := h
  have hndc : (s.cache.map Prod.fst).Nodup := by rw [hct]; exact hnd
  obtain ⟨⟨f1, f2, f3⟩, fcount, flen, ffin, fhist, fsp, fusers, fsnap⟩ :=
    batchFold_inv a now ps s 0 hndc hct hkeys
  obtain ⟨ct, cc, cco, ch, cu, csn, csp⟩ := placeBatchCore_components ps a now s
  have hcore : WF (placeBatchCore ps a now s) := by
    refine ⟨?_, ?_, ?_, ?_⟩
    · rw [ct, ← f2]; exact f1
    · rw [cc, ct, f2]
    · rw [cco, cc, fcount]
      omega
    · rw [cc]; exact f3
  refine ⟨WF_maybePrune hcore, ?_⟩
  show ((maybePruneHistory (placeBatchCore ps a now s)).cache.map
      Prod.fst).toFinset = _
  rw [maybePrune_cache, cc, ffin]

/-! ### The bulk-import fold -/

theorem bulkImportStep_components (now : Nat) (s : ServerState) (p : PixelIn) :
    (bulkImportStep now s p).table
        = setKey (p.x, p.y) ⟨p.x, p.y, p.color, none, now⟩ s.table ∧
    (bulkImportStep now s p).cache
        = setKey (p.x, p.y) ⟨p.x, p.y, p.color, none, now⟩ s.cache ∧
    (bulkImportStep now s p).count
        = (if hasKey (p.x, p.y) s.cache then s.count else s.count + 1) ∧
    (bulkImportStep now s p).history = s.history ∧
    (bulkImportStep now s p).users = s.users ∧
    (bulkImportStep now s p).snapshots = s.snapshots ∧
    (bulkImportStep now s p).sincePrune = s.sincePrune := by
  refine ⟨?_, ?_, ?_, ?_, ?_, ?_, ?_⟩ <;>
    (simp only [bulkImportStep]; try (split <;> rfl)) <;> rfl

theorem bulkImport_inv (now : Nat) :
    ∀ (ps : List PixelIn) (s : ServerState), WF s →
      WF (bulkImport ps now s) ∧
      ((bulkImport ps now s).cache.map Prod.fst).toFinset
        = ps.foldl (fun f p => insert ((p.x, p.y) : Coord) f)
            ((s.cache.map Prod.fst).toFinset) ∧
      (bulkImport ps now s).history = s.history ∧
      (bulkImport ps now s).sincePrune = s.sincePrune ∧
      (bulkImport ps now s).users = s.users ∧
      (bulkImport ps now s).snapshots = s.snapshots := by
  intro ps
  induction ps with
  | nil =>
    intro s h
    exact ⟨h, by simp [bulkImport], rfl, rfl, rfl, rfl⟩
  | cons p ps ih =>
    intro s h
    obtain ⟨hnd, hct, hcnt, hkeys⟩ := h
    have hndc : (s.cache.map Prod.fst).Nodup := by rw [hct]; exact hnd
    obtain ⟨ht, hc, hco, hh, hu, hsn, hsp⟩ := bulkImportStep_components now s p
    obtain ⟨snd, skeys, slen, sfin⟩ :=
      setKey_preserves hndc hkeys p.x p.y p.color none now
    have hwf' : WF (bulkImportStep now s p) := by
      refine ⟨?_, ?_, ?_, ?_⟩
      · rw [ht, ← hct]; exact snd
      · rw [hc, ht, hct]
      · rw [hco, hc, slen]
        by_cases hb : hasKey ((p.x, p.y) : Coord) s.cache = true
        · rw [if_pos hb, if_pos hb, hcnt]
        · rw [if_neg hb, if_neg hb]
          omega
      · rw [hc]; exact skeys
    have hfold : bulkImport (p :: ps) now s
        = bulkImport ps now (bulkImportStep now s p) := by
      simp [bulkImport]
    obtain ⟨g1, g2, g3, g4, g5, g6⟩ := ih (bulkImportStep now s p) hwf'
    rw [hfold]
    refine ⟨g1, ?_, ?_, ?_, ?_, ?_⟩
    · rw [g2, hc, sfin, List.foldl_cons]
    · rw [g3, hh]
    · rw [g4, hsp]
    · rw [g5, hu]
    · rw [g6, hsn]

theorem getAllPixels_bulkImport_fresh (now : Nat) :
    ∀ (ps : List PixelIn) (s : ServerState),
      (∀ p ∈ ps, hasKey ((p.x, p.y) : Coord) s.cache = false) →
      ((ps.map (fun p => ((p.x, p.y) : Coord))).Nodup) →
      getAllPixels (bulkImport ps now s) = getAllPixels s ++ ps := by
  intro ps
  induction ps with
  | nil => intro s _ _; simp [bulkImport]
  | cons p ps ih =>
    intro s hfresh hnd
    have hpf : hasKey ((p.x, p.y) : Coord) s.cache = false := hfresh p (by simp)
    have hpf' : ¬ ((s.cache.any (fun q => q.1 == ((p.x, p.y) : Coord))) = true) := by
      have hx : hasKey ((p.x, p.y) : Coord) s.cache = false := hpf
      simp only [hasKey] at hx
      rw [hx]
      simp
    have hset : setKey ((p.x, p.y) : Coord) ⟨p.x, p.y, p.color, none, now⟩ s.cache
        = s.cache ++ [(((p.x, p.y) : Coord), ⟨p.x, p.y, p.color, none, now⟩)] := by
      unfold setKey
      rw [if_neg hpf']
    obtain ⟨ht, hc, hco, hh, hu, hsn, hsp⟩ := bulkImportStep_components now s p
    simp only [List.map_cons, List.nodup_cons] at hnd
    obtain ⟨hpnot, hnd'⟩ := hnd
    have hfresh' : ∀ q ∈ ps, hasKey ((q.x, q.y) : Coord)
        (bulkImportStep now s p).cache = false := by
      intro q hq
      rw [hc, hset]
      have h1 : hasKey ((q.x, q.y) : Coord) s.cache = false :=
        hfresh q (List.mem_cons_of_mem p hq)
      have h2 : ¬ (((p.x, p.y) : Coord) = ((q.x, q.y) : Coord)) := by
        intro hqc
        exact hpnot (by rw [hqc]; exact List.mem_map.mpr ⟨q, hq, rfl⟩)
      simp only [hasKey, List.any_append, List.any_cons, List.any_nil] at h1 ⊢
      rw [h1]
      simp [h2]
    have hfold : bulkImport (p :: ps) now s
        = bulkImport ps now (bulkImportStep now s p) := by
      simp [bulkImport]
    rw [hfold, ih (bulkImportStep now s p) hfresh' hnd']
    unfold getAllPixels
    rw [hc, hset]
    simp


/-! ### Mutation sequences: invariant machinery -/

theorem applyOps_cons (o : Op) (ops : List Op) (s : ServerState) :
    applyOps (o :: ops) s = applyOps ops (applyOp o s) := rfl

theorem applyOps_WF_keys (ops : List Op) :
    ∀ (s : ServerState), WF s →
      WF (applyOps ops s) ∧
      ((applyOps ops s).cache.map Prod.fst).toFinset
        = occAfter ops ((s.cache.map Prod.fst).toFinset) := by
  induction ops with
  | nil => intro s h; exact ⟨h, rfl⟩
  | cons o ops ih =>
    intro s h
    cases o with
    | place x y c a now =>
      obtain ⟨hw, hk⟩ := WF_placePixel h x y c a now
      obtain ⟨hw', hk'⟩ := ih (placePixel x y c a now s) hw
      refine ⟨hw', ?_⟩
      calc ((applyOps (Op.place x y c a now :: ops) s).cache.map Prod.fst).toFinset
          = ((applyOps ops (placePixel x y c a now s)).cache.map Prod.fst).toFinset := rfl
        _ = occAfter ops (((placePixel x y c a now s).cache.map Prod.fst).toFinset) := hk'
        _ = occAfter ops (insert ((x, y) : Coord) ((s.cache.map Prod.fst).toFinset)) := by
              rw [hk]
        _ = occAfter (Op.place x y c a now :: ops)
              ((s.cache.map Prod.fst).toFinset) := rfl
    | batch ps a now =>
      obtain ⟨hw, hk⟩ := WF_placeBatch h ps a now
      obtain ⟨hw', hk'⟩ := ih (placeBatch ps a now s) hw
      refine ⟨hw', ?_⟩
      calc ((applyOps (Op.batch ps a now :: ops) s).cache.map Prod.fst).toFinset
          = ((applyOps ops (placeBatch ps a now s)).cache.map Prod.fst).toFinset := rfl
        _ = occAfter ops (((placeBatch ps a now s).cache.map Prod.fst).toFinset) := hk'
        _ = occAfter ops (ps.foldl (fun g p => insert ((p.x, p.y) : Coord) g)
              ((s.cache.map Prod.fst).toFinset)) := by rw [hk]
        _ = occAfter (Op.batch ps a now :: ops)
              ((s.cache.map Prod.fst).toFinset) := rfl
    | erase x y a =>
      obtain ⟨hw, hk⟩ := WF_erasePixel h x y a
      obtain ⟨hw', hk'⟩ := ih (erasePixel x y a s) hw
      refine ⟨hw', ?_⟩
      calc ((applyOps (Op.erase x y a :: ops) s).cache.map Prod.fst).toFinset
          = ((applyOps ops (erasePixel x y a s)).cache.map Prod.fst).toFinset := rfl
        _ = occAfter ops (((erasePixel x y a s).cache.map Prod.fst).toFinset) := hk'
        _ = occAfter ops (((s.cache.map Prod.fst).toFinset).erase ((x, y) : Coord)) := by
              rw [hk]
        _ = occAfter (Op.erase x y a :: ops)
              ((s.cache.map Prod.fst).toFinset) := rfl

/-! ### Amortized truncation behavior -/

theorem length_pruneHistoryRun (h : List HistEntry) :
    (pruneHistoryRun h).length = h.length - (h.length - HISTORY_MAX_ENTRIES) := by
  unfold pruneHistoryRun
  rw [List.length_drop]

theorem placePixel_sincePrune (x y : Int) (c : String) (a : Option String)
    (now : Nat) (s : ServerState) :
    (placePixel x y c a now s).sincePrune
      = if s.sincePrune + 1 < PRUNE_CHECK_INTERVAL then s.sincePrune + 1 else 0 := by
  obtain ⟨_, _, _, _, _, _, hsp⟩ := placePixelCore_components x y c a now s
  show (maybePruneHistory (placePixelCore x y c a now s)).sincePrune = _
  rw [maybePrune_sincePrune, hsp]

theorem placePixel_history_length (x y : Int) (c : String) (a : Option String)
    (now : Nat) (s : ServerState) :
    (placePixel x y c a now s).history.length
      = if s.sincePrune + 1 < PRUNE_CHECK_INTERVAL then s.history.length + 1
        else if HISTORY_MAX_ENTRIES < s.history.length + 1 then HISTORY_MAX_ENTRIES
        else s.history.length + 1 := by
  obtain ⟨_, _, _, hh, _, _, hsp⟩ := placePixelCore_components x y c a now s
  show (maybePruneHistory (placePixelCore x y c a now s)).history.length = _
  rw [maybePrune_history, hsp, hh]
  by_cases h1 : s.sincePrune + 1 < PRUNE_CHECK_INTERVAL
  · rw [if_pos h1, if_pos h1]
    simp
  · rw [if_neg h1, if_neg h1]
    by_cases h2 : HISTORY_MAX_ENTRIES < s.history.length + 1
    · have hlen : (s.history ++ [(⟨x, y, c, a⟩ : HistEntry)]).length
          = s.history.length + 1 := by simp
      rw [if_pos (by rw [hlen]; omega), if_pos h2, length_pruneHistoryRun, hlen]
      omega
    · have hlen : (s.history ++ [(⟨x, y, c, a⟩ : HistEntry)]).length
          = s.history.length + 1 := by simp
      rw [if_neg (by rw [hlen]; omega), if_neg h2, hlen]

theorem batchFold_sincePrune (a : Option String) (now : Nat) :
    ∀ (ps : List PixelIn) (s : ServerState) (n : Int),
      (ps.foldl (placeBatchStep a now) (s, n)).1.sincePrune = s.sincePrune := by
  intro ps
  induction ps with
  | nil => intro s n; rfl
  | cons p ps ih =>
    intro s n
    rw [List.foldl_cons]
    rcases hpair : placeBatchStep a now (s, n) p with ⟨s₁, n₁⟩
    have hsp := (placeBatchStep_components a now s n p).2.2.2.2.2.2.1
    rw [hpair] at hsp
    dsimp only at hsp
    rw [ih s₁ n₁, hsp]

theorem placeBatch_sincePrune (ps : List PixelIn) (a : Option String)
    (now : Nat) (s : ServerState) :
    (placeBatch ps a now s).sincePrune
      = if s.sincePrune + 1 < PRUNE_CHECK_INTERVAL then s.sincePrune + 1 else 0 := by
  show (maybePruneHistory (placeBatchCore ps a now s)).sincePrune = _
  rw [maybePrune_sincePrune]
  have hsp : (placeBatchCore ps a now s).sincePrune
      = (ps.foldl (placeBatchStep a now) (s, 0)).1.sincePrune := rfl
  rw [hsp, batchFold_sincePrune a now ps s 0]

theorem erase_history_growth (x y : Int) (a : Option String) :
    ∀ (n : Nat) (s : ServerState),
      (applyOps (List.replicate n (Op.erase x y a)) s).history.length
        = s.history.length + n := by
  intro n
  induction n with
  | zero => intro s; rfl
  | succ m ih =>
    intro s
    rw [List.replicate_succ, applyOps_cons, ih]
    obtain ⟨_, _, _, hh, _, _, _⟩ := erasePixel_components x y a s
    show (erasePixel x y a s).history.length + m = _
    rw [hh]
    simp
    omega

theorem placeSeq_bound :
    ∀ (ops : List Op), (∀ o ∈ ops, isSinglePlace o = true) →
    ∀ (s : ServerState),
      s.sincePrune < PRUNE_CHECK_INTERVAL →
      s.history.length ≤ HISTORY_MAX_ENTRIES + s.sincePrune →
      (applyOps ops s).sincePrune < PRUNE_CHECK_INTERVAL ∧
      (applyOps ops s).history.length
        ≤ HISTORY_MAX_ENTRIES + (applyOps ops s).sincePrune := by
  intro ops
  induction ops with
  | nil => intro _ s h1 h2; exact ⟨h1, h2⟩
  | cons o ops ih =>
    intro hall s h1 h2
    have ho := hall o (by simp)
    cases o with
    | place x y c a now =>
      rw [applyOps_cons]
      have hsp := placePixel_sincePrune x y c a now s
      have hhl := placePixel_history_length x y c a now s
      have hK : PRUNE_CHECK_INTERVAL = 500 := rfl
      have hM : HISTORY_MAX_ENTRIES = 100000 := rfl
      refine ih (fun o' ho' => hall o' (List.mem_cons_of_mem _ ho'))
        (applyOp (Op.place x y c a now) s) ?_ ?_
      · show (placePixel x y c a now s).sincePrune < PRUNE_CHECK_INTERVAL
        rw [hsp]
        split <;> omega
      · show (placePixel x y c a now s).history.length
            ≤ HISTORY_MAX_ENTRIES + (placePixel x y c a now s).sincePrune
        rw [hsp, hhl]
        by_cases hc1 : s.sincePrune + 1 < PRUNE_CHECK_INTERVAL
        · rw [if_pos hc1, if_pos hc1]
          omega
        · rw [if_neg hc1, if_neg hc1]
          split <;> omega
    | batch ps a now => simp [isSinglePlace] at ho
    | erase x y a => simp [isSinglePlace] at ho

/-! ### Admission bookkeeping -/

theorem addConn_total (s : WsState) (ip : String) :
    (addConn s ip).total = s.total + 1 := rfl

theorem find_bump (ip : String) :
    ∀ (l : List (String × Nat)),
      ((((l.map (fun q => if q.1 == ip then (q.1, q.2 + 1) else q)).find?
          (fun q => q.1 == ip)).map Prod.snd).getD 0)
        = (if l.any (fun q => q.1 == ip) then
            (((l.find? (fun q => q.1 == ip)).map Prod.snd).getD 0) + 1
          else 0) := by
  intro l
  induction l with
  | nil => simp
  | cons e t ih =>
    rw [List.map_cons]
    by_cases he : (e.1 == ip) = true
    · rw [if_pos he]
      have h1 : List.find? (fun q => q.1 == ip)
          (((e.1, e.2 + 1) : String × Nat) ::
            t.map (fun q => if q.1 == ip then (q.1, q.2 + 1) else q))
          = some (e.1, e.2 + 1) := List.find?_cons_of_pos _ he
      have h2 : List.find? (fun q => q.1 == ip) (e :: t) = some e :=
        List.find?_cons_of_pos _ he
      have h3 : (e :: t).any (fun q => q.1 == ip) = true := by
        simp [List.any_cons, he]
      rw [h1, h2, if_pos h3]
      simp
    · rw [if_neg he]
      have h1 : List.find? (fun q => q.1 == ip)
          (e :: t.map (fun q => if q.1 == ip then (q.1, q.2 + 1) else q))
          = List.find? (fun q => q.1 == ip)
              (t.map (fun q => if q.1 == ip then (q.1, q.2 + 1) else q)) :=
        List.find?_cons_of_neg _ he
      have h2 : List.find? (fun q => q.1 == ip) (e :: t)
          = List.find? (fun q => q.1 == ip) t := List.find?_cons_of_neg _ he
      have h3 : (e :: t).any (fun q => q.1 == ip) = t.any (fun q => q.1 == ip) := by
        simp only [List.any_cons]
        rw [show (e.1 == ip) = false by simpa using he]
        simp
      rw [h1, h2, h3, ih]

theorem find_skip (ip ip' : String) (hne : ip' ≠ ip) :
    ∀ (l : List (String × Nat)),
      ((l.map (fun q => if q.1 == ip then (q.1, q.2 + 1) else q)).find?
          (fun q => q.1 == ip'))
        = l.find? (fun q => q.1 == ip') := by
  intro l
  induction l with
  | nil => simp
  | cons e t ih =>
    rw [List.map_cons]
    by_cases he : (e.1 == ip) = true
    · have he' : ¬ ((e.1 == ip') = true) := by
        simp only [beq_iff_eq] at he ⊢
        rw [he]
        exact fun hx => hne hx.symm
      rw [if_pos he]
      have h1 : List.find? (fun q => q.1 == ip')
          (((e.1, e.2 + 1) : String × Nat) ::
            t.map (fun q => if q.1 == ip then (q.1, q.2 + 1) else q))
          = List.find? (fun q => q.1 == ip')
              (t.map (fun q => if q.1 == ip then (q.1, q.2 + 1) else q)) :=
        List.find?_cons_of_neg _ he'
      have h2 : List.find? (fun q => q.1 == ip') (e :: t)
          = List.find? (fun q => q.1 == ip') t := List.find?_cons_of_neg _ he'
      rw [h1, h2]
      exact ih
    · rw [if_neg he]
      by_cases he' : (e.1 == ip') = true
      · have h1 : List.find? (fun q => q.1 == ip')
            (e :: t.map (fun q => if q.1 == ip then (q.1, q.2 + 1) else q))
            = some e := List.find?_cons_of_pos _ he'
        have h2 : List.find? (fun q => q.1 == ip') (e :: t) = some e :=
          List.find?_cons_of_pos _ he'
        rw [h1, h2]
      · have h1 : List.find? (fun q => q.1 == ip')
            (e :: t.map (fun q => if q.1 == ip then (q.1, q.2 + 1) else q))
            = List.find? (fun q => q.1 == ip')
                (t.map (fun q => if q.1 == ip then (q.1, q.2 + 1) else q)) :=
          List.find?_cons_of_neg _ he'
        have h2 : List.find? (fun q => q.1 == ip') (e :: t)
            = List.find? (fun q => q.1 == ip') t := List.find?_cons_of_neg _ he'
        rw [h1, h2]
        exact ih

theorem ipCount_addConn_self (s : WsState) (ip : String) :
    ipCount (addConn s ip) ip = ipCount s ip + 1 := by
  unfold ipCount addConn
  by_cases h : s.connsByIP.any (fun e => e.1 == ip) = true
  · rw [if_pos h]
    show ((((s.connsByIP.map
        (fun (q : String × Nat) => if q.1 == ip then (q.1, q.2 + 1) else q)).find?
        (fun (q : String × Nat) => q.1 == ip)).map Prod.snd).getD 0) = _
    rw [find_bump ip s.connsByIP, if_pos h]
  · rw [if_neg h]
    have hnone : s.connsByIP.find? (fun e => e.1 == ip) = none := by
      rw [List.find?_eq_none]
      intro e he hek
      rw [List.any_eq_true] at h
      exact h ⟨e, he, hek⟩
    show ((((s.connsByIP ++ [(ip, 1)]).find?
        (fun (q : String × Nat) => q.1 == ip)).map Prod.snd).getD 0) = _
    rw [List.find?_append, hnone]
    simp [List.find?]

theorem ipCount_addConn_other (s : WsState) (ip ip' : String) (hne : ip' ≠ ip) :
    ipCount (addConn s ip) ip' = ipCount s ip' := by
  unfold ipCount addConn
  by_cases h : s.connsByIP.any (fun e => e.1 == ip) = true
  · rw [if_pos h]
    show ((((s.connsByIP.map
        (fun (q : String × Nat) => if q.1 == ip then (q.1, q.2 + 1) else q)).find?
        (fun (q : String × Nat) => q.1 == ip')).map Prod.snd).getD 0) = _
    rw [find_skip ip ip' hne s.connsByIP]
  · rw [if_neg h]
    show ((((s.connsByIP ++ [(ip, 1)]).find?
        (fun (q : String × Nat) => q.1 == ip')).map Prod.snd).getD 0) = _
    rw [List.find?_append]
    have hlast : ([((ip, 1) : String × Nat)].find?
        (fun (q : String × Nat) => q.1 == ip')) = none := by
      rw [List.find?_eq_none]
      intro e' he' hpred
      simp only [List.mem_singleton] at he'
      subst he'
      simp only [beq_iff_eq] at hpred
      exact hne hpred.symm
    rw [hlast]
    simp

/-! ### Liveness traces -/

theorem runConn_cons (e : CEvent) (es : List CEvent) (c : Conn) :
    runConn (e :: es) c = runConn es (stepConn e c) := rfl

theorem stepConn_sweep_terminated (c : Conn) (t : Nat)
    (hterm : c.terminated = false) :
    (stepConn (.sweep t) c).terminated = true ↔
      (c.isAlive = false ∧ terminateGraceMs < t - c.lastActivity) := by
  unfold stepConn
  rw [if_neg (by simp [hterm])]
  dsimp only
  by_cases ha : c.isAlive = true
  · rw [if_neg (by simp [ha])]
    simp [hterm, ha]
  · have ha' : c.isAlive = false := by simpa using ha
    by_cases hg : terminateGraceMs < t - c.lastActivity
    · rw [if_pos (by simp [ha', hg])]
      simp [ha', hg]
    · rw [if_neg (by simp [ha', hg])]
      simp [hterm, ha', hg]

theorem respondsAllProbes_not_evicted (l : List (Nat × Nat)) :
    ∀ c : Conn, c.terminated = false → c.isAlive = true →
      (runConn (probeTrace l) c).terminated = false ∧
      (runConn (probeTrace l) c).isAlive = true := by
  induction l with
  | nil => intro c h1 h2; exact ⟨h1, h2⟩
  | cons tp l ih =>
    intro c h1 h2
    rw [probeTrace, runConn_cons, runConn_cons]
    have hs : stepConn (.sweep tp.1) c
        = { c with isAlive := false } := by
      unfold stepConn
      rw [if_neg (by simp [h1])]
      dsimp only
      rw [if_neg (by simp [h2])]
    have hp : stepConn (.pong tp.2) { c with isAlive := false }
        = { c with isAlive := true, lastActivity := tp.2 } := by
      unfold stepConn
      rw [if_neg (by simp [h1])]
    rw [hs, hp]
    exact ih _ (by simp [h1]) rfl

theorem sweeps_within_grace (ts : List Nat) :
    ∀ c : Conn, c.terminated = false →
      (∀ t ∈ ts, t ≤ c.lastActivity + terminateGraceMs) →
      (runConn (ts.map CEvent.sweep) c).terminated = false := by
  induction ts with
  | nil => intro c h1 _; exact h1
  | cons t ts ih =>
    intro c h1 hts
    rw [List.map_cons, runConn_cons]
    have hcond : ¬ (terminateGraceMs < t - c.lastActivity) := by
      have := hts t (by simp)
      omega
    have hs : stepConn (.sweep t) c = { c with isAlive := false } := by
      unfold stepConn
      rw [if_neg (by simp [h1])]
      dsimp only
      rw [if_neg (by simp [hcond])]
    rw [hs]
    refine ih _ (by simp [h1]) ?_
    intro t' ht'
    exact hts t' (by simp [ht'])


end Remiplace

namespace Remiplace

/-- C1: with the replay guard in its local configuration, a first call of
`checkAndUseNonce` for a fresh `(address, nonce)` pair whose timestamp is
within five minutes of server time is accepted; after it, any call for the
same pair with an in-window timestamp is rejected `nonce_reused`; the
recorded pair survives every cleanup sweep run within the TTL; and any
call whose timestamp is more than five minutes from server time is
rejected `expired_timestamp` regardless of the store contents. -/
theorem replay_guard_first_accept_then_reject
    (s : NonceStore) (address nonce : String) (ts₁ : Int) (now₁ : Nat)
    (hfresh : hasNonce s address nonce = false)
    (hts₁ : ((now₁ : Int) - ts₁).natAbs ≤ tsWindowMs) :
    (checkAndUseNonce s address nonce ts₁ now₁).1 = .valid ∧
    (∀ (ts₂ : Int) (now₂ : Nat), ((now₂ : Int) - ts₂).natAbs ≤ tsWindowMs →
      (checkAndUseNonce (checkAndUseNonce s address nonce ts₁ now₁).2
        address nonce ts₂ now₂).1 = .invalid "nonce_reused") ∧
    (∀ now', now' ≤ now₁ + nonceTTLMs →
      hasNonce (sweepExpired now' (checkAndUseNonce s address nonce ts₁ now₁).2)
        address nonce = true) ∧
    (∀ (s' : NonceStore) (ts : Int) (now : Nat), ((now : Int) - ts).natAbs > tsWindowMs →
      (checkAndUseNonce s' address nonce ts now).1 = .invalid "expired_timestamp") := by
  have hany : s.entries.any (fun e => e.1 == nonceKey address nonce) = false := hfresh
  have hstate : (checkAndUseNonce s address nonce ts₁ now₁).2
      = ⟨s.entries ++ [(nonceKey address nonce, now₁)]⟩ := by
    unfold checkAndUseNonce
    rw [if_neg (by omega)]
    simp [hany]
  refine ⟨?_, ?_, ?_, ?_⟩
  · unfold checkAndUseNonce
    rw [if_neg (by omega)]
    simp [hany]
  · intro ts₂ now₂ hts₂
    rw [hstate]
    unfold checkAndUseNonce
    rw [if_neg (by omega)]
    simp
  · intro now' hnow'
    rw [hstate]
    unfold sweepExpired hasNonce
    refine List.any_eq_true.mpr ⟨(nonceKey address nonce, now₁), ?_, by simp⟩
    rw [List.mem_filter]
    refine ⟨by simp, by simp; omega⟩
  · intro s' ts now hts
    unfold checkAndUseNonce
    rw [if_pos (by omega)]

/-- Witness for C1 at a concrete input: empty store, address `"0xAbC"`,
nonce `"n1"`, server time `1000000`, timestamp `1000000`. -/
theorem replay_guard_first_accept_then_reject_witness :
    (checkAndUseNonce ⟨[]⟩ "0xAbC" "n1" 1000000 1000000).1 = .valid ∧
    (∀ (ts₂ : Int) (now₂ : Nat), ((now₂ : Int) - ts₂).natAbs ≤ tsWindowMs →
      (checkAndUseNonce (checkAndUseNonce ⟨[]⟩ "0xAbC" "n1" 1000000 1000000).2
        "0xAbC" "n1" ts₂ now₂).1 = .invalid "nonce_reused") ∧
    (∀ now', now' ≤ 1000000 + nonceTTLMs →
      hasNonce (sweepExpired now' (checkAndUseNonce ⟨[]⟩ "0xAbC" "n1" 1000000 1000000).2)
        "0xAbC" "n1" = true) ∧
    (∀ (s' : NonceStore) (ts : Int) (now : Nat), ((now : Int) - ts).natAbs > tsWindowMs →
      (checkAndUseNonce s' "0xAbC" "n1" ts now).1 = .invalid "expired_timestamp") :=
  replay_guard_first_accept_then_reject ⟨[]⟩ "0xAbC" "n1" 1000000 1000000
    (by decide) (by decide)

/-- C5: for an in-bounds coordinate and palette color, placing the same
`(x, y, color, identity)` twice (at write times `now₁`, `now₂`) leaves
the same observable grid state — occupied cells with colors and writers —
as placing it once, while the placement log receives two entries instead
of one (stated away from the truncation ceiling, whose separate amortized
behavior is C3's concern). -/
theorem place_twice_idempotent_observable (s : ServerState)
    (x y : Int) (c : String) (a : Option String) (now₁ now₂ : Nat)
    (hx : 0 ≤ x ∧ x < canvasWidthCfg) (hy : 0 ≤ y ∧ y < canvasHeightCfg)
    (hcpal : c ∈ paletteCfg)
    (hroom : s.history.length + 2 ≤ HISTORY_MAX_ENTRIES) :
    observableGrid (placePixel x y c a now₂ (placePixel x y c a now₁ s))
      = observableGrid (placePixel x y c a now₁ s) ∧
    (placePixel x y c a now₂ (placePixel x y c a now₁ s)).history
      = s.history ++ [⟨x, y, c, a⟩, ⟨x, y, c, a⟩] ∧
    (placePixel x y c a now₁ s).history = s.history ++ [⟨x, y, c, a⟩] := by
  obtain ⟨ht₁, hc₁, hco₁, hh₁, hu₁, hsn₁, hsp₁⟩ :=
    placePixelCore_components x y c a now₁ s
  have hhist₁ : (placePixel x y c a now₁ s).history = s.history ++ [⟨x, y, c, a⟩] := by
    show (maybePruneHistory (placePixelCore x y c a now₁ s)).history = _
    rw [maybePrune_history_of_le (by rw [hh₁]; simp; omega), hh₁]
  have hcache₁ : (placePixel x y c a now₁ s).cache
      = setKey (x, y) ⟨x, y, c, a, now₁⟩ s.cache := by
    show (maybePruneHistory (placePixelCore x y c a now₁ s)).cache = _
    rw [maybePrune_cache, hc₁]
  obtain ⟨ht₂, hc₂, hco₂, hh₂, hu₂, hsn₂, hsp₂⟩ :=
    placePixelCore_components x y c a now₂ (placePixel x y c a now₁ s)
  have hhist₂ : (placePixel x y c a now₂ (placePixel x y c a now₁ s)).history
      = s.history ++ [⟨x, y, c, a⟩, ⟨x, y, c, a⟩] := by
    show (maybePruneHistory (placePixelCore x y c a now₂ _)).history = _
    rw [maybePrune_history_of_le (by rw [hh₂, hhist₁]; simp; omega), hh₂, hhist₁]
    simp
  have hcache₂ : (placePixel x y c a now₂ (placePixel x y c a now₁ s)).cache
      = setKey (x, y) ⟨x, y, c, a, now₂⟩
          (setKey (x, y) ⟨x, y, c, a, now₁⟩ s.cache) := by
    show (maybePruneHistory (placePixelCore x y c a now₂ _)).cache = _
    rw [maybePrune_cache, hc₂, hcache₁]
  refine ⟨?_, hhist₂, hhist₁⟩
  unfold observableGrid
  rw [hcache₂, hcache₁]
  exact observable_setKey_twice (x, y) ⟨x, y, c, a, now₁⟩ ⟨x, y, c, a, now₂⟩
    s.cache rfl rfl

/-- Witness for C5 at a concrete input: the empty startup state, pixel
`(3, 4)` in color `"#ff0000"` written twice by `"0xabc"`. -/
theorem place_twice_idempotent_observable_witness :
    observableGrid (placePixel 3 4 "#ff0000" (some "0xabc") 20
        (placePixel 3 4 "#ff0000" (some "0xabc") 10 initEmpty))
      = observableGrid (placePixel 3 4 "#ff0000" (some "0xabc") 10 initEmpty) ∧
    (placePixel 3 4 "#ff0000" (some "0xabc") 20
        (placePixel 3 4 "#ff0000" (some "0xabc") 10 initEmpty)).history
      = initEmpty.history
          ++ [⟨3, 4, "#ff0000", some "0xabc"⟩, ⟨3, 4, "#ff0000", some "0xabc"⟩] ∧
    (placePixel 3 4 "#ff0000" (some "0xabc") 10 initEmpty).history
      = initEmpty.history ++ [⟨3, 4, "#ff0000", some "0xabc"⟩] :=
  place_twice_idempotent_observable initEmpty 3 4 "#ff0000" (some "0xabc") 10 20
    (by decide) (by decide) (by decide) (by decide)

/-- C10: erasing a coordinate that holds no occupied cell does not fail,
leaves the cache, the cell table, the occupancy count and the users
unchanged (so the count never drops below the true occupancy, and
well-formedness is preserved), yet still appends a placement-log entry
with the sentinel color `'ERASED'`. -/
theorem erase_absent_appends_log_only (s : ServerState) (x y : Int)
    (a : Option String) (hwf : WF s)
    (habs : hasKey (x, y) s.cache = false) :
    (erasePixel x y a s).cache = s.cache ∧
    (erasePixel x y a s).table = s.table ∧
    (erasePixel x y a s).count = s.count ∧
    (erasePixel x y a s).history = s.history ++ [⟨x, y, "ERASED", a⟩] ∧
    (erasePixel x y a s).users = s.users ∧
    WF (erasePixel x y a s) := by
  obtain ⟨hnd, hct, hcnt, hkeys⟩ := hwf
  obtain ⟨ht, hc, hco, hh, hu, hsn, hsp⟩ := erasePixel_components x y a s
  have hbne : ¬ (hasKey (x, y) s.cache = true) := by simp [habs]
  have hdel : delKey ((x, y) : Coord) s.cache = s.cache := delKey_of_not_has habs
  refine ⟨?_, ?_, ?_, hh, hu,
    (WF_erasePixel ⟨hnd, hct, hcnt, hkeys⟩ x y a).1⟩
  · rw [hc, if_neg hbne]
  · rw [ht, ← hct, hdel, hct]
  · rw [hco, if_neg hbne]

/-- Witness for C10 at a concrete input: erasing `(5, 6)` as `"admin"`
in the empty startup state. -/
theorem erase_absent_appends_log_only_witness :
    (erasePixel 5 6 (some "admin") initEmpty).cache = initEmpty.cache ∧
    (erasePixel 5 6 (some "admin") initEmpty).table = initEmpty.table ∧
    (erasePixel 5 6 (some "admin") initEmpty).count = initEmpty.count ∧
    (erasePixel 5 6 (some "admin") initEmpty).history
      = initEmpty.history ++ [⟨5, 6, "ERASED", some "admin"⟩] ∧
    (erasePixel 5 6 (some "admin") initEmpty).users = initEmpty.users ∧
    WF (erasePixel 5 6 (some "admin") initEmpty) :=
  erase_absent_appends_log_only initEmpty 5 6 (some "admin")
    (by decide) (by decide)


/-- C2: starting from the startup state (cache loaded from the `pixels`
table), after every sequence of place, batch-place and erase mutations
the occupancy count returned by `getPixelCount` equals the number of
cache entries, equals the number of rows of the `pixels` table, and
equals the number of distinct currently-occupied coordinates —
coordinates ever written minus those subsequently erased, as tracked by
the specification-level `occAfter`. -/
theorem cache_count_matches_store (table : KeyedRows) (history : List HistEntry)
    (users : List (String × Nat)) (snaps : List (List PixelIn)) (ops : List Op)
    (hnd : (table.map Prod.fst).Nodup)
    (hkeys : ∀ kv ∈ table, ((kv.2.x, kv.2.y) : Coord) = kv.1) :
    getPixelCount (applyOps ops (initState table history users snaps))
        = ((applyOps ops (initState table history users snaps)).cache.length : Int) ∧
    getPixelCount (applyOps ops (initState table history users snaps))
        = ((applyOps ops (initState table history users snaps)).table.length : Int) ∧
    getPixelCount (applyOps ops (initState table history users snaps))
        = ((occAfter ops ((table.map Prod.fst).toFinset)).card : Int) := by
  have hwf0 : WF (initState table history users snaps) := ⟨hnd, rfl, rfl, hkeys⟩
  obtain ⟨⟨hnd', hct', hcnt', hkeys'⟩, hfin⟩ :=
    applyOps_WF_keys ops (initState table history users snaps) hwf0
  refine ⟨hcnt', ?_, ?_⟩
  · unfold getPixelCount
    rw [hcnt', hct']
  · have hndc' : ((applyOps ops (initState table history users snaps)).cache.map
        Prod.fst).Nodup := by rw [hct']; exact hnd'
    have hcard : ((applyOps ops (initState table history users snaps)).cache.map
        Prod.fst).toFinset.card
        = (applyOps ops (initState table history users snaps)).cache.length := by
      rw [List.toFinset_card_of_nodup hndc']
      simp
    unfold getPixelCount
    rw [hcnt', ← hcard, hfin]
    rfl

/-- Witness for C2 at a concrete input: one pre-existing row, then a
place, an erase of the pre-existing cell, and a two-pixel batch. -/
theorem cache_count_matches_store_witness :
    getPixelCount (applyOps
        [Op.place 1 1 "#ff0000" (some "u") 5,
         Op.erase 0 0 (some "admin"),
         Op.batch [⟨2, 2, "#00ff00"⟩, ⟨1, 1, "#0000ff"⟩] (some "u") 6]
        (initState [((0, 0), ⟨0, 0, "#ffffff", none, 0⟩)] [] [] []))
      = ((applyOps
        [Op.place 1 1 "#ff0000" (some "u") 5,
         Op.erase 0 0 (some "admin"),
         Op.batch [⟨2, 2, "#00ff00"⟩, ⟨1, 1, "#0000ff"⟩] (some "u") 6]
        (initState [((0, 0), ⟨0, 0, "#ffffff", none, 0⟩)] [] [] [])).cache.length : Int) ∧
    getPixelCount (applyOps
        [Op.place 1 1 "#ff0000" (some "u") 5,
         Op.erase 0 0 (some "admin"),
         Op.batch [⟨2, 2, "#00ff00"⟩, ⟨1, 1, "#0000ff"⟩] (some "u") 6]
        (initState [((0, 0), ⟨0, 0, "#ffffff", none, 0⟩)] [] [] []))
      = ((applyOps
        [Op.place 1 1 "#ff0000" (some "u") 5,
         Op.erase 0 0 (some "admin"),
         Op.batch [⟨2, 2, "#00ff00"⟩, ⟨1, 1, "#0000ff"⟩] (some "u") 6]
        (initState [((0, 0), ⟨0, 0, "#ffffff", none, 0⟩)] [] [] [])).table.length : Int) ∧
    getPixelCount (applyOps
        [Op.place 1 1 "#ff0000" (some "u") 5,
         Op.erase 0 0 (some "admin"),
         Op.batch [⟨2, 2, "#00ff00"⟩, ⟨1, 1, "#0000ff"⟩] (some "u") 6]
        (initState [((0, 0), ⟨0, 0, "#ffffff", none, 0⟩)] [] [] []))
      = ((occAfter
        [Op.place 1 1 "#ff0000" (some "u") 5,
         Op.erase 0 0 (some "admin"),
         Op.batch [⟨2, 2, "#00ff00"⟩, ⟨1, 1, "#0000ff"⟩] (some "u") 6]
        (([((0, 0), (⟨0, 0, "#ffffff", none, 0⟩ : Row))].map
          Prod.fst).toFinset)).card : Int) :=
  cache_count_matches_store [((0, 0), ⟨0, 0, "#ffffff", none, 0⟩)] [] [] []
    [Op.place 1 1 "#ff0000" (some "u") 5,
     Op.erase 0 0 (some "admin"),
     Op.batch [⟨2, 2, "#00ff00"⟩, ⟨1, 1, "#0000ff"⟩] (some "u") 6]
    (by decide) (by decide)

/-- Counterexample to C3 as stated: `transactions.erase` never calls
`maybePruneHistory`, so the erase mutation does not advance the
amortized check, and a sequence of erase mutations alone pushes the log
length beyond the ceiling plus the check interval with no truncation. -/
theorem erase_skips_prune_counterexample :
    (applyOp (Op.erase 0 0 (some "admin")) initEmpty).sincePrune
        = initEmpty.sincePrune ∧
    (applyOps (List.replicate
        (HISTORY_MAX_ENTRIES + PRUNE_CHECK_INTERVAL + 1)
        (Op.erase 0 0 (some "admin"))) initEmpty).history.length
      = HISTORY_MAX_ENTRIES + PRUNE_CHECK_INTERVAL + 1 := by
  constructor
  · rfl
  · rw [erase_history_growth 0 0 (some "admin")
      (HISTORY_MAX_ENTRIES + PRUNE_CHECK_INTERVAL + 1) initEmpty]
    rfl

/-- C3 as amended: place and batch-place advance the amortized check
(resetting it at the interval), erase does not advance it; when the
check fires (every `PRUNE_CHECK_INTERVAL`-th advancing mutation) with
the log over the ceiling, truncation deletes the oldest rows in that
transaction leaving exactly `HISTORY_MAX_ENTRIES` (the newest) rows; and
along any sequence of single-pixel place mutations from startup the log
length stays at most ceiling + interval, returning to at most the
ceiling whenever the check fires. -/
theorem amortized_prune_amended :
    (∀ (s : ServerState) (x y : Int) (c : String) (a : Option String) (now : Nat),
      (placePixel x y c a now s).sincePrune
        = if s.sincePrune + 1 < PRUNE_CHECK_INTERVAL then s.sincePrune + 1 else 0) ∧
    (∀ (s : ServerState) (ps : List PixelIn) (a : Option String) (now : Nat),
      (placeBatch ps a now s).sincePrune
        = if s.sincePrune + 1 < PRUNE_CHECK_INTERVAL then s.sincePrune + 1 else 0) ∧
    (∀ (s : ServerState) (x y : Int) (a : Option String),
      (erasePixel x y a s).sincePrune = s.sincePrune) ∧
    (∀ (s : ServerState), PRUNE_CHECK_INTERVAL ≤ s.sincePrune + 1 →
      HISTORY_MAX_ENTRIES < s.history.length →
      (maybePruneHistory s).history
          = s.history.drop (s.history.length - HISTORY_MAX_ENTRIES) ∧
      (maybePruneHistory s).history.length = HISTORY_MAX_ENTRIES) ∧
    (∀ (ops : List Op), (∀ o ∈ ops, isSinglePlace o = true) →
      (applyOps ops initEmpty).history.length
        ≤ HISTORY_MAX_ENTRIES + PRUNE_CHECK_INTERVAL) := by
  refine ⟨?_, ?_, ?_, ?_, ?_⟩
  · intro s x y c a now
    exact placePixel_sincePrune x y c a now s
  · intro s ps a now
    exact placeBatch_sincePrune ps a now s
  · intro s x y a
    exact (erasePixel_components x y a s).2.2.2.2.2.2
  · intro s hK hM
    have hh := maybePrune_history s
    rw [if_neg (by omega), if_pos (by omega)] at hh
    refine ⟨hh, ?_⟩
    rw [hh]
    show (pruneHistoryRun s.history).length = _
    rw [length_pruneHistoryRun]
    omega
  · intro ops hall
    have h := placeSeq_bound ops hall initEmpty (by decide) (by decide)
    omega

/-- Witness for C3's amended claim at concrete inputs: a place from the
startup state, the exact truncation on a brink state holding
`HISTORY_MAX_ENTRIES + 1` log rows, and the bound for a one-place
sequence. -/
theorem amortized_prune_amended_witness :
    ((placePixel 0 0 "#000000" none 0 initEmpty).sincePrune
      = if initEmpty.sincePrune + 1 < PRUNE_CHECK_INTERVAL
        then initEmpty.sincePrune + 1 else 0) ∧
    ((erasePixel 0 0 none initEmpty).sincePrune = initEmpty.sincePrune) ∧
    ((maybePruneHistory pruneWitnessState).history.length
      = HISTORY_MAX_ENTRIES) ∧
    ((applyOps [Op.place 0 0 "#000000" none 0] initEmpty).history.length
      ≤ HISTORY_MAX_ENTRIES + PRUNE_CHECK_INTERVAL) := by
  refine ⟨amortized_prune_amended.1 initEmpty 0 0 "#000000" none 0,
    amortized_prune_amended.2.2.1 initEmpty 0 0 none,
    (amortized_prune_amended.2.2.2.1 pruneWitnessState (by decide) ?_).2,
    amortized_prune_amended.2.2.2.2 [Op.place 0 0 "#000000" none 0] ?_⟩
  · show HISTORY_MAX_ENTRIES
        < (List.replicate (HISTORY_MAX_ENTRIES + 1)
            (⟨0, 0, "#000000", none⟩ : HistEntry)).length
    rw [List.length_replicate]
    omega
  · intro o ho
    simp only [List.mem_singleton] at ho
    subst ho
    rfl

/-- C4 (code-bug exhibit): an out-of-range write arriving through the
WebSocket pixel handler is committed, not rejected: at `x = -1`
(outside `0 ≤ x < width`) the place path returns success, inserts the
cell-table row, bumps the occupancy count, and appends a placement-log
entry, because neither the handler nor the transaction checks bounds. -/
theorem ws_out_of_range_write_committed :
    ((-1 : Int) < 0) ∧
    (handlePixel true true false (-1) 0 (some "#ff0000") (some "0xabc") 0
        initEmpty).1 = WsResult.placed ∧
    hasKey ((-1, 0) : Coord)
      (handlePixel true true false (-1) 0 (some "#ff0000") (some "0xabc") 0
        initEmpty).2.table = true ∧
    getPixelCount
      (handlePixel true true false (-1) 0 (some "#ff0000") (some "0xabc") 0
        initEmpty).2 = 1 ∧
    (handlePixel true true false (-1) 0 (some "#ff0000") (some "0xabc") 0
        initEmpty).2.history.length = 1 := by
  decide

/-- C6: exporting the canvas, clearing it, and bulk-importing the export
reproduces exactly the exported occupied-cell list of `(x, y, color)`
triples. -/
theorem export_clear_import_roundtrip (s : ServerState) (now : Nat)
    (hwf : WF s) :
    getAllPixels (importCanvas (exportCanvas s) now (svcClearCanvas s))
      = exportCanvas s := by
  obtain ⟨hnd, hct, hcnt, hkeys⟩ := hwf
  have hndc : (s.cache.map Prod.fst).Nodup := by rw [hct]; exact hnd
  have hkeysmap : (exportCanvas s).map (fun p => ((p.x, p.y) : Coord))
      = s.cache.map Prod.fst := by
    unfold exportCanvas getAllPixels
    rw [List.map_map]
    refine List.map_congr_left ?_
    intro kv hkv
    exact hkeys kv hkv
  have hndk : ((exportCanvas s).map (fun p => ((p.x, p.y) : Coord))).Nodup := by
    rw [hkeysmap]
    exact hndc
  have hfresh : ∀ p ∈ exportCanvas s,
      hasKey ((p.x, p.y) : Coord) (saveSnapshot (svcClearCanvas s)).cache
        = false := by
    intro p hp
    rfl
  have h := getAllPixels_bulkImport_fresh now (exportCanvas s)
    (saveSnapshot (svcClearCanvas s)) hfresh hndk
  show getAllPixels (bulkImport (exportCanvas s) now
      (saveSnapshot (svcClearCanvas s))) = _
  rw [h]
  rfl

/-- Witness for C6 at a concrete input: a two-pixel canvas reached
through the mutation path, round-tripped at time 7. -/
theorem export_clear_import_roundtrip_witness :
    getAllPixels (importCanvas (exportCanvas roundtripWitnessState) 7
        (svcClearCanvas roundtripWitnessState))
      = exportCanvas roundtripWitnessState :=
  export_clear_import_roundtrip roundtripWitnessState 7 (by decide)

/-- C7: with per-source cap 2 and room under the global cap, three
successive attempts from one source admit the first two and reject the
third with the per-source reason whatever its token says (so before any
token verification); a fourth attempt from a different source is
admitted; a full server instead rejects with the distinct global
reason. -/
theorem admission_caps (s : WsState) (ipA ipB : String) (maxTotal : Nat)
    (hne : ipA ≠ ipB)
    (hA : ipCount s ipA = 0) (hB : ipCount s ipB = 0)
    (hroom : s.total + 2 < maxTotal) :
    ((handleConnection 2 maxTotal s ipA .noToken).1 = .admitted false) ∧
    ((handleConnection 2 maxTotal
        (handleConnection 2 maxTotal s ipA .noToken).2 ipA .noToken).1
      = .admitted false) ∧
    (∀ tok : TokenCheck,
      (handleConnection 2 maxTotal
          (handleConnection 2 maxTotal
            (handleConnection 2 maxTotal s ipA .noToken).2 ipA .noToken).2
          ipA tok).1
        = .rejected "Too many connections") ∧
    ((handleConnection 2 maxTotal
        (handleConnection 2 maxTotal
          (handleConnection 2 maxTotal s ipA .noToken).2 ipA .noToken).2
        ipB .noToken).1 = .admitted false) ∧
    (∀ (s' : WsState) (ip : String) (tok : TokenCheck), maxTotal ≤ s'.total →
      (handleConnection 2 maxTotal s' ip tok).1 = .rejected "Server full") ∧
    ("Server full" ≠ "Too many connections") := by
  have hc1 : canConnect 2 maxTotal s ipA = none := by
    unfold canConnect
    rw [if_neg (by omega), if_neg (by rw [hA]; omega)]
  have e1 : handleConnection 2 maxTotal s ipA .noToken
      = (.admitted false, addConn s ipA) := by
    unfold handleConnection
    rw [hc1]
  have ht1 : (addConn s ipA).total = s.total + 1 := rfl
  have hA1 : ipCount (addConn s ipA) ipA = 1 := by
    rw [ipCount_addConn_self, hA]
  have hB1 : ipCount (addConn s ipA) ipB = 0 := by
    rw [ipCount_addConn_other s ipA ipB (Ne.symm hne), hB]
  have hc2 : canConnect 2 maxTotal (addConn s ipA) ipA = none := by
    unfold canConnect
    rw [if_neg (by rw [ht1]; omega), if_neg (by rw [hA1]; omega)]
  have e2 : handleConnection 2 maxTotal (addConn s ipA) ipA .noToken
      = (.admitted false, addConn (addConn s ipA) ipA) := by
    unfold handleConnection
    rw [hc2]
  have ht2 : (addConn (addConn s ipA) ipA).total = s.total + 2 := by
    rw [addConn_total, ht1]
  have hA2 : ipCount (addConn (addConn s ipA) ipA) ipA = 2 := by
    rw [ipCount_addConn_self, hA1]
  have hB2 : ipCount (addConn (addConn s ipA) ipA) ipB = 0 := by
    rw [ipCount_addConn_other (addConn s ipA) ipA ipB (Ne.symm hne), hB1]
  have hc3 : canConnect 2 maxTotal (addConn (addConn s ipA) ipA) ipA
      = some "Too many connections" := by
    unfold canConnect
    rw [if_neg (by rw [ht2]; omega), if_pos (by rw [hA2])]
  have hc4 : canConnect 2 maxTotal (addConn (addConn s ipA) ipA) ipB = none := by
    unfold canConnect
    rw [if_neg (by rw [ht2]; omega), if_neg (by rw [hB2]; omega)]
  refine ⟨by rw [e1], ?_, ?_, ?_, ?_, by decide⟩
  · rw [e1]
    dsimp only
    rw [e2]
  · intro tok
    rw [e1]
    dsimp only
    rw [e2]
    dsimp only
    unfold handleConnection
    rw [hc3]
  · rw [e1]
    dsimp only
    rw [e2]
    dsimp only
    unfold handleConnection
    rw [hc4]
  · intro s' ip tok hfull
    unfold handleConnection canConnect
    rw [if_pos (by omega)]

/-- Witness for C7 at a concrete input: the empty admission state,
sources `"1.1.1.1"` and `"2.2.2.2"`, global cap 10000. -/
theorem admission_caps_witness :
    ((handleConnection 2 10000 ⟨[], 0⟩ "1.1.1.1" .noToken).1
      = .admitted false) ∧
    ((handleConnection 2 10000
        (handleConnection 2 10000 ⟨[], 0⟩ "1.1.1.1" .noToken).2
        "1.1.1.1" .noToken).1 = .admitted false) ∧
    (∀ tok : TokenCheck,
      (handleConnection 2 10000
          (handleConnection 2 10000
            (handleConnection 2 10000 ⟨[], 0⟩ "1.1.1.1" .noToken).2
            "1.1.1.1" .noToken).2
          "1.1.1.1" tok).1
        = .rejected "Too many connections") ∧
    ((handleConnection 2 10000
        (handleConnection 2 10000
          (handleConnection 2 10000 ⟨[], 0⟩ "1.1.1.1" .noToken).2
          "1.1.1.1" .noToken).2
        "2.2.2.2" .noToken).1 = .admitted false) ∧
    (∀ (s' : WsState) (ip : String) (tok : TokenCheck), 10000 ≤ s'.total →
      (handleConnection 2 10000 s' ip tok).1 = .rejected "Server full") ∧
    ("Server full" ≠ "Too many connections") :=
  admission_caps ⟨[], 0⟩ "1.1.1.1" "2.2.2.2" 10000
    (by decide) (by decide) (by decide) (by decide)

/-- C8: the sweep terminates a connection exactly when it both missed
the most recent probe and has had no activity of any kind for more than
the 60-second grace; a connection answering every probe is never
evicted; any inbound message protects the connection through every sweep
within the grace that follows it; a single missed probe alone is never
fatal; and the grace spans multiple 25-second probe intervals. -/
theorem liveness_eviction_requires_both :
    (∀ (c : Conn) (t : Nat), c.terminated = false →
      ((stepConn (.sweep t) c).terminated = true ↔
        (c.isAlive = false ∧ terminateGraceMs < t - c.lastActivity))) ∧
    (∀ (l : List (Nat × Nat)) (c : Conn), c.terminated = false →
      c.isAlive = true →
      (runConn (probeTrace l) c).terminated = false) ∧
    (∀ (tm : Nat) (ts : List Nat) (c : Conn), c.terminated = false →
      (∀ t ∈ ts, t ≤ tm + terminateGraceMs) →
      (runConn (CEvent.msg tm :: ts.map CEvent.sweep) c).terminated = false) ∧
    (∀ (c : Conn) (t₁ t₂ : Nat), c.terminated = false → c.isAlive = true →
      t₂ ≤ c.lastActivity + terminateGraceMs →
      (runConn [CEvent.sweep t₁, CEvent.sweep t₂] c).terminated = false) ∧
    (heartbeatIntervalMs = 25000 ∧ terminateGraceMs = 60000 ∧
      2 * heartbeatIntervalMs < terminateGraceMs) := by
  refine ⟨?_, ?_, ?_, ?_, rfl, rfl, by decide⟩
  · intro c t h
    exact stepConn_sweep_terminated c t h
  · intro l c h1 h2
    exact (respondsAllProbes_not_evicted l c h1 h2).1
  · intro tm ts c h1 hts
    rw [runConn_cons]
    have hm : stepConn (.msg tm) c
        = { c with isAlive := true, lastActivity := tm } := by
      unfold stepConn
      rw [if_neg (by simp [h1])]
    rw [hm]
    refine sweeps_within_grace ts _ h1 ?_
    intro t ht
    exact hts t ht
  · intro c t₁ t₂ h1 h2 hg
    rw [runConn_cons, runConn_cons]
    have hs1 : stepConn (.sweep t₁) c = { c with isAlive := false } := by
      unfold stepConn
      rw [if_neg (by simp [h1])]
      dsimp only
      rw [if_neg (by simp [h2])]
    rw [hs1]
    have hs2 : stepConn (.sweep t₂) { c with isAlive := false }
        = { c with isAlive := false } := by
      unfold stepConn
      rw [if_neg (by simp [h1])]
      dsimp only
      rw [if_neg (by simp; omega)]
    rw [hs2]
    exact h1

/-- Witness for C8 at concrete inputs: a stale unresponsive connection
at the eviction boundary, a two-probe responsive connection, a
message-protected connection, and a single missed probe. -/
theorem liveness_eviction_requires_both_witness :
    (((stepConn (.sweep 70000) ⟨false, 0, false⟩).terminated = true) ↔
      ((⟨false, 0, false⟩ : Conn).isAlive = false ∧
        terminateGraceMs < 70000 - (⟨false, 0, false⟩ : Conn).lastActivity)) ∧
    ((runConn (probeTrace [(25000, 25100), (50000, 50100)])
        ⟨true, 0, false⟩).terminated = false) ∧
    ((runConn (CEvent.msg 1000 :: ([30000, 55000].map CEvent.sweep))
        ⟨true, 0, false⟩).terminated = false) ∧
    ((runConn [CEvent.sweep 25000, CEvent.sweep 50000]
        ⟨true, 0, false⟩).terminated = false) :=
  ⟨liveness_eviction_requires_both.1 ⟨false, 0, false⟩ 70000 rfl,
   liveness_eviction_requires_both.2.1 [(25000, 25100), (50000, 50100)]
     ⟨true, 0, false⟩ rfl rfl,
   liveness_eviction_requires_both.2.2.1 1000 [30000, 55000]
     ⟨true, 0, false⟩ rfl (by decide),
   liveness_eviction_requires_both.2.2.2.1 ⟨true, 0, false⟩ 25000 50000
     rfl rfl (by decide)⟩

/-- C9: a shared-channel message is redelivered to local connections
exactly when its origin tag differs from the receiving instance's
identity; in particular a message published by an instance and received
back by the same instance is never redelivered. -/
theorem broadcast_no_echo :
    (∀ (selfId : String) (m : BMsg),
      shouldRedeliver selfId CHANNEL m = true ↔ m.origin ≠ selfId) ∧
    (∀ (selfId msgType msgData : String),
      shouldRedeliver selfId CHANNEL (publishShared selfId msgType msgData)
        = false) := by
  constructor
  · intro selfId m
    simp [shouldRedeliver]
  · intro selfId msgType msgData
    simp [shouldRedeliver, publishShared]


end Remiplace
